import Mathlib

/-!
# dafeiji: the simulation core of `game.js`

A shallow embedding of the game state, the per-frame `update`, the frame
`loop` and the key handlers of `src/game.js`.

Modelling conventions
* JavaScript numbers are modelled by exact rationals (`ℚ`); the score, which
  only ever holds integers, is an `ℤ`.  The rounding of IEEE doubles is not
  modelled: positions and timers agree with the code up to rounding in the
  last digit, and nothing is stated here about which tick a counted-down
  timer reaches 0 on, which the rounding of repeated subtraction decides.
* The global `state` object is the record `State`; the globals `keys` and
  `lastTime` live next to it in `Sys`.  The canvas constants `W` and `H` are
  parameters.
* Every call of `Math.random()` that a tick can make is supplied by the
  caller in a `Rand` record, in the order the source consumes them.
* The sound calls `playShoot`, `playHit` and `playGameOver` are recorded as
  the events a function returns next to the new state.  Drawing and the
  score label of the page are not modelled.
-/

namespace Dafeiji

/-! ## Data model -/

/-- The `state.player` object. -/
structure Player where
  x : ℚ
  y : ℚ
  w : ℚ
  h : ℚ
  speed : ℚ
deriving DecidableEq, Repr

/-- An element of `state.bullets`. -/
structure Bullet where
  x : ℚ
  y : ℚ
  r : ℚ
  vy : ℚ
deriving DecidableEq, Repr

/-- An element of `state.enemies`. -/
structure Enemy where
  x : ℚ
  y : ℚ
  w : ℚ
  h : ℚ
  vy : ℚ
deriving DecidableEq, Repr

/-- The argument shape of `rectHit`: a centre and a size. -/
structure Box where
  x : ℚ
  y : ℚ
  w : ℚ
  h : ℚ
deriving DecidableEq, Repr

/-- The global `state` object. -/
structure State where
  running : Bool
  started : Bool
  paused : Bool
  score : ℤ
  player : Player
  bullets : List Bullet
  enemies : List Enemy
  spawnTimer : ℚ
  fireCooldown : ℚ
  gameOverSounded : Bool
deriving DecidableEq, Repr

/-- The sound calls made by the simulation. -/
inductive Event where
  | shoot
  | hit
  | gameOver
deriving DecidableEq, Repr

/-- The values of the `Math.random()` calls of one tick, in call order:
the enemy size, its x, its vy (all in `spawnEnemy`) and the new spawn timer. -/
structure Rand where
  size : ℚ
  x : ℚ
  vy : ℚ
  timer : ℚ
deriving DecidableEq, Repr

/-! ## The functions of `game.js` -/

/-- The object literal `state` of lines 16-33. -/
def initialState (W H : ℚ) : State :=
  { running := true, started := false, paused := false, score := 0,
    player := { x := W / 2, y := H - 60, w := 32, h := 36, speed := 280 },
    bullets := [], enemies := [], spawnTimer := 0, fireCooldown := 0,
    gameOverSounded := false }

/-- `resetGame()`. -/
def resetGame (W H : ℚ) (s : State) : State :=
  { s with
    running := true, started := true, paused := false, score := 0,
    player := { s.player with x := W / 2, y := H - 60 },
    bullets := [], enemies := [], spawnTimer := 0, fireCooldown := 0,
    gameOverSounded := false }

/-- `initGame()`. -/
def initGame (W H : ℚ) (s : State) : State :=
  { s with
    running := true, started := false, paused := false, score := 0,
    player := { s.player with x := W / 2, y := H - 60 },
    bullets := [], enemies := [], spawnTimer := 0, fireCooldown := 0,
    gameOverSounded := false }

/-- `clamp(v, min, max)`: `Math.max(min, Math.min(max, v))`. -/
def clamp (v lo hi : ℚ) : ℚ := max lo (min hi v)

/-- `shoot()`. -/
def shoot (s : State) : State × List Event :=
  if s.fireCooldown > 0 then (s, [])
  else
    ({ s with
        fireCooldown := 18 / 100
        bullets := s.bullets ++
          [{ x := s.player.x, y := s.player.y - s.player.h / 2 - 8, r := 3, vy := -520 }] },
      [Event.shoot])

/-- `spawnEnemy()`. -/
def spawnEnemy (W : ℚ) (rnd : Rand) (s : State) : State :=
  let size := 28 + rnd.size * 16
  { s with
    enemies := s.enemies ++
      [{ x := 20 + rnd.x * (W - 40), y := -size, w := size, h := size,
         vy := 90 + rnd.vy * 120 }] }

/-- `rectHit(a, b)`. -/
def rectHit (a b : Box) : Bool :=
  decide (a.x - a.w / 2 < b.x + b.w / 2) &&
  decide (a.x + a.w / 2 > b.x - b.w / 2) &&
  decide (a.y - a.h / 2 < b.y + b.h / 2) &&
  decide (a.y + a.h / 2 > b.y - b.h / 2)

/-- The literal `playerBox` of line 181. -/
def playerBox (p : Player) : Box := { x := p.x, y := p.y, w := p.w, h := p.h }

/-- The literal `{ x: e.x, y: e.y, w: e.w, h: e.h }` of lines 182 and 195. -/
def enemyBox (e : Enemy) : Box := { x := e.x, y := e.y, w := e.w, h := e.h }

/-- The literal `bulletBox` of line 194. -/
def bulletBox (b : Bullet) : Box := { x := b.x, y := b.y, w := b.r * 2, h := b.r * 2 }

/-- `keys.has(code)`. -/
def held (keys : List String) (code : String) : Bool := decide (code ∈ keys)

/-- Lines 156-158: the net direction. -/
def direction (keys : List String) : ℚ :=
  let dir : ℚ := 0
  let dir := if held keys "ArrowLeft" || held keys "KeyA" then dir - 1 else dir
  if held keys "ArrowRight" || held keys "KeyD" then dir + 1 else dir

/-- Line 160: the player moves and is clamped. -/
def movePlayer (W : ℚ) (keys : List String) (dt : ℚ) (s : State) : State :=
  { s with
    player := { s.player with
      x := clamp (s.player.x + direction keys * s.player.speed * dt) 16 (W - 16) } }

/-- Line 162: `if (keys.has("Space")) shoot();`. -/
def fireStage (keys : List String) (s : State) : State × List Event :=
  if held keys "Space" then shoot s else (s, [])

/-- Lines 164-165: the two timers count down. The subtractions are exact
here; the code subtracts doubles. -/
def timerStage (dt : ℚ) (s : State) : State :=
  { s with fireCooldown := max 0 (s.fireCooldown - dt), spawnTimer := s.spawnTimer - dt }

/-- Lines 166-169: the spawner. -/
def spawnStage (W : ℚ) (rnd : Rand) (s : State) : State :=
  if s.spawnTimer ≤ 0 then
    { spawnEnemy W rnd s with spawnTimer := 55 / 100 + rnd.timer * (4 / 10) }
  else s

/-- Line 172: `b.y += b.vy * dt`. -/
def moveBullet (dt : ℚ) (b : Bullet) : Bullet := { b with y := b.y + b.vy * dt }

/-- The filter predicate of line 174: `b.y + b.r > -10`. -/
def keepBullet (b : Bullet) : Bool := decide (b.y + b.r > -10)

/-- Lines 171-174: the bullets advance, then the ones above the top are dropped. -/
def bulletStage (dt : ℚ) (s : State) : State :=
  { s with bullets := (s.bullets.map (moveBullet dt)).filter keepBullet }

/-- Line 177: `e.y += e.vy * dt`. -/
def moveEnemy (dt : ℚ) (e : Enemy) : Enemy := { e with y := e.y + e.vy * dt }

/-- Lines 176-178: the enemies advance. -/
def enemyStage (dt : ℚ) (s : State) : State :=
  { s with enemies := s.enemies.map (moveEnemy dt) }

/-- The body of the loop of lines 180-188 for one enemy, on the flag `state.running`. -/
def terminalStep (H : ℚ) (p : Player) (run : Bool) (e : Enemy) : Bool :=
  let run := if rectHit (playerBox p) (enemyBox e) then false else run
  if e.y - e.h / 2 > H then false else run

/-- Lines 180-188: the player-vs-enemy and bottom-boundary pass. -/
def terminalPass (H : ℚ) (s : State) : State :=
  { s with running := s.enemies.foldl (terminalStep H s.player) s.running }

/-- The inner loop of lines 193-203 for the enemy `e`: `none` when no bullet
hits (`hit` stays false), otherwise the bullets with the first hitting one
moved to `y = -1000`. -/
def scanBullets (e : Enemy) : List Bullet → Option (List Bullet)
  | [] => none
  | b :: bs =>
    if rectHit (bulletBox b) (enemyBox e) then some ({ b with y := -1000 } :: bs)
    else (scanBullets e bs).map (fun bs' => b :: bs')

/-- What the loop of lines 190-205 computes. -/
structure PassResult where
  alive : List Enemy
  bullets : List Bullet
  score : ℤ
  events : List Event
deriving DecidableEq, Repr

/-- Lines 190-205: the bullet-vs-enemy loop over the enemies, threading the
bullets (mutated in place by a hit), the score and the `playHit` calls. -/
def collide : List Enemy → List Bullet → ℤ → PassResult
  | [], bs, sc => { alive := [], bullets := bs, score := sc, events := [] }
  | e :: es, bs, sc =>
    match scanBullets e bs with
    | some bs' =>
      let r := collide es bs' (sc + 10)
      { r with events := Event.hit :: r.events }
    | none =>
      let r := collide es bs sc
      { r with alive := e :: r.alive }

/-- Lines 190-206: the bullet-vs-enemy pass on the state. -/
def bulletPass (s : State) : State × List Event :=
  let r := collide s.enemies s.bullets s.score
  ({ s with enemies := r.alive, bullets := r.bullets, score := r.score }, r.events)

/-- The guard of line 153 is passed: the phase is Running. -/
def isRunning (s : State) : Bool := s.started && !s.paused && s.running

/-- Lines 155-178 of `update`: everything before the two collision passes. -/
def advance (W : ℚ) (keys : List String) (rnd : Rand) (dt : ℚ) (s : State) :
    State × List Event :=
  let s1 := movePlayer W keys dt s
  let f := fireStage keys s1
  (enemyStage dt (bulletStage dt (spawnStage W rnd (timerStage dt f.1))), f.2)

/-- `update(dt)`. -/
def update (W H : ℚ) (keys : List String) (rnd : Rand) (dt : ℚ) (s : State) :
    State × List Event :=
  if !s.started || s.paused || !s.running then (s, [])
  else
    let a := advance W keys rnd dt s
    let c := bulletPass (terminalPass H a.1)
    (c.1, a.2 ++ c.2)

/-- One tick's inputs: the time step, the held keys and the random draws. -/
structure Tick where
  dt : ℚ
  keys : List String
  rnd : Rand
deriving DecidableEq, Repr

/-- Consecutive calls of `update`, collecting the events. -/
def runTicks (W H : ℚ) : State → List Tick → State × List Event
  | s, [] => (s, [])
  | s, t :: ts =>
    let r := update W H t.keys t.rnd t.dt s
    let r' := runTicks W H r.1 ts
    (r'.1, r.2 ++ r'.2)

/-! ## The frame loop and the key handlers -/

/-- The globals next to `state`: the set `keys` and `lastTime`. -/
structure Sys where
  state : State
  keys : List String
  lastTime : ℚ
deriving DecidableEq, Repr

/-- What the page delivers: an animation frame with its timestamp (and the
random draws its tick may consume), a `keydown` or a `keyup`. -/
inductive Input where
  | frame (ts : ℚ) (rnd : Rand)
  | keydown (code : String)
  | keyup (code : String)
deriving DecidableEq, Repr

/-- The JavaScript expression `v || 0` on a number. -/
def orZero (v : ℚ) : ℚ := if v = 0 then 0 else v

/-- Line 345: `Math.min(0.033, t - lastTime || 0)`. -/
def frameDt (lastTime t : ℚ) : ℚ := min (33 / 1000) (orZero (t - lastTime))

/-- Lines 349-352: the one-shot game-over sound. -/
def gameOverStage (s : State) : State × List Event :=
  if s.started && !s.running && !s.gameOverSounded then
    ({ s with gameOverSounded := true }, [Event.gameOver])
  else (s, [])

/-- `loop(ts)`, without the drawing calls. -/
def loop (W H : ℚ) (ts : ℚ) (rnd : Rand) (σ : Sys) : Sys × List Event :=
  let t := ts / 1000
  let dt := frameDt σ.lastTime t
  let u := update W H σ.keys rnd dt σ.state
  let g := gameOverStage u.1
  ({ state := g.1, keys := σ.keys, lastTime := t }, u.2 ++ g.2)

/-- `keys.add(code)`. -/
def keysAdd (keys : List String) (code : String) : List String :=
  if code ∈ keys then keys else keys ++ [code]

/-- `keys.delete(code)`. -/
def keysDelete (keys : List String) (code : String) : List String :=
  keys.filter (fun c => c != code)

/-- The `keydown` listener of lines 365-383. -/
def keydown (W H : ℚ) (code : String) (σ : Sys) : Sys :=
  if code = "Enter" ∧ σ.state.started = false then
    { σ with state := resetGame W H σ.state }
  else if code = "KeyP" ∧ σ.state.started = true ∧ σ.state.running = true then
    { σ with state := { σ.state with paused := !σ.state.paused } }
  else if code = "KeyR" then
    { σ with state := resetGame W H σ.state }
  else
    { σ with keys := keysAdd σ.keys code }

/-- The `keyup` listener of lines 385-387. -/
def keyup (code : String) (σ : Sys) : Sys :=
  { σ with keys := keysDelete σ.keys code }

/-- One delivered input. -/
def step (W H : ℚ) (σ : Sys) : Input → Sys × List Event
  | Input.frame ts rnd => loop W H ts rnd σ
  | Input.keydown code => (keydown W H code σ, [])
  | Input.keyup code => (keyup code σ, [])

/-- A sequence of inputs, collecting the events. -/
def run (W H : ℚ) : Sys → List Input → Sys × List Event
  | σ, [] => (σ, [])
  | σ, i :: is =>
    let r := step W H σ i
    let r' := run W H r.1 is
    (r'.1, r.2 ++ r'.2)

/-- The input is a frame whose `update` switches the state from Running to
Ended: the guard of `update` is passed and `state.running` is false after it. -/
def switchesToEnded (W H : ℚ) (σ : Sys) : Input → Bool
  | Input.frame ts rnd =>
    isRunning σ.state &&
      !(update W H σ.keys rnd (frameDt σ.lastTime (ts / 1000)) σ.state).1.running
  | _ => false

/-! ## Specification-level notions -/

/-- The invariant of a session: the game has started, and the game-over
sound has been played exactly when the game has ended. -/
def SessionInv (σ : Sys) : Prop :=
  σ.state.started = true ∧ σ.state.gameOverSounded = !σ.state.running

/-- 0 while the game runs, 1 once it has ended. -/
def endedCount (σ : Sys) : ℕ := if σ.state.running then 0 else 1

/-- The bullet's box overlaps the enemy's box: the test of line 195. -/
def overlaps (e : Enemy) (b : Bullet) : Bool := rectHit (bulletBox b) (enemyBox e)

/-- The bullets after the inner loop for `e`: as before when no bullet hits. -/
def bulletsAfter (e : Enemy) (bs : List Bullet) : List Bullet :=
  (scanBullets e bs).getD bs

/-- Every enemy of the pass, in processing order, paired with the bullets
collection as it stands when that enemy is scanned (bullets that hit an
earlier enemy have been moved to `y = -1000` by then). -/
def scanned : List Enemy → List Bullet → List (Enemy × List Bullet)
  | [], _ => []
  | e :: es, bs => (e, bs) :: scanned es (bulletsAfter e bs)

/-- At least one bullet's box overlaps the enemy when it is scanned. -/
def isOverlapped (p : Enemy × List Bullet) : Bool := p.2.any (overlaps p.1)

/-- The index, in storage order, of the first bullet whose box overlaps the
enemy: the bullet at which the inner loop of lines 193-203 breaks. -/
def firstHit (e : Enemy) : List Bullet → Option ℕ
  | [] => none
  | b :: bs => if overlaps e b then some 0 else (firstHit e bs).map (fun i => i + 1)

/-- The indices of the hitting bullets of one bullet-vs-enemy pass, one per
destroyed enemy, in processing order. -/
def hitters : List Enemy → List Bullet → List ℕ
  | [], _ => []
  | e :: es, bs => (firstHit e bs).toList ++ hitters es (bulletsAfter e bs)

/-- A draw of `Math.random()`: a number in `[0, 1)`. -/
def RandOk (r : Rand) : Prop :=
  (0 ≤ r.size ∧ r.size < 1) ∧ (0 ≤ r.x ∧ r.x < 1) ∧ (0 ≤ r.vy ∧ r.vy < 1) ∧
    (0 ≤ r.timer ∧ r.timer < 1)

/-- The states reachable from `resetGame` by ticks with `0 ≤ dt ≤ 0.033`,
random draws in `[0, 1)` and arbitrary held keys, and by the pause key. -/
inductive Reachable (W H : ℚ) : State → Prop where
  | reset (s : State) : Reachable W H (resetGame W H s)
  | tick (s : State) (keys : List String) (rnd : Rand) (dt : ℚ) :
      Reachable W H s → 0 ≤ dt → dt ≤ 33 / 1000 → RandOk rnd →
      Reachable W H (update W H keys rnd dt s).1
  | pause (s : State) :
      Reachable W H s → s.started = true → s.running = true →
      Reachable W H { s with paused := !s.paused }

/-- What the proof of the bullet invariant needs of a state: the enemies
move down and are not far above the top, and every bullet has radius 3. -/
def GoodState (s : State) : Prop :=
  (∀ e ∈ s.enemies, 0 ≤ e.vy ∧ -66 ≤ e.y - e.h / 2) ∧ (∀ b ∈ s.bullets, b.r = 3)

/-- A bullet whose box lies entirely above `y = -997`, as a hitting bullet's
does once it has been moved to `y = -1000`. -/
def Dead (b : Bullet) : Prop := b.y + b.r ≤ -997

/-- The number of `playShoot` calls, one per bullet created. -/
def shots (evs : List Event) : ℕ := evs.count Event.shoot

/-- The time a list of ticks takes: the sum of their `dt`. -/
def elapsed (ts : List Tick) : ℚ := (ts.map Tick.dt).sum

/-- The bullet that `shoot` appends, at the player's nose. -/
def noseBullet (p : Player) : Bullet :=
  { x := p.x, y := p.y - p.h / 2 - 8, r := 3, vy := -520 }

/-- The state every reset produces: Running, score 0, the player recentred,
no bullets, no enemies, both timers at 0. -/
def freshState (W H : ℚ) : State := { initialState W H with started := true }

/-- The lifecycle phases. -/
inductive Phase where
  | notStarted
  | running
  | paused
  | ended
deriving DecidableEq, Repr

/-- The phase the flags denote, as the overlays of `drawStart`, `drawGameOver`
and `drawPaused` and the guard of `update` read them. -/
def phase (s : State) : Phase :=
  if !s.started then Phase.notStarted
  else if !s.running then Phase.ended
  else if s.paused then Phase.paused
  else Phase.running

/-- The timestamps of the frames among the inputs, in order. -/
def frameTimes : List Input → List ℚ
  | [] => []
  | Input.frame ts _ :: is => ts :: frameTimes is
  | Input.keydown _ :: is => frameTimes is
  | Input.keyup _ :: is => frameTimes is

/-- The enemy that `spawnEnemy` pushes for the draws `rnd`. -/
def spawned (W : ℚ) (rnd : Rand) : Enemy :=
  { x := 20 + rnd.x * (W - 40), y := -(28 + rnd.size * 16), w := 28 + rnd.size * 16,
    h := 28 + rnd.size * 16, vy := 90 + rnd.vy * 120 }

/-- The input is a start or restart command: `KeyR`, or `Enter` while the
game has not started. These are the inputs that call `resetGame`. -/
def isRestart (σ : Sys) : Input → Bool
  | Input.keydown code =>
    decide (code = "KeyR") || (decide (code = "Enter") && !σ.state.started)
  | _ => false

/-- The lifecycle flags in reachable states: paused only while started and
running, and not ended before the start. -/
def PhaseInv (s : State) : Prop :=
  (s.paused = true → s.started = true ∧ s.running = true) ∧
  (s.started = false → s.running = true)

/-! ## Sample states -/

/-- A paused state with a bullet, an enemy and a positive score. -/
def pausedSample : State :=
  { running := true, started := true, paused := true, score := 30,
    player := { x := 240, y := 580, w := 32, h := 36, speed := 280 },
    bullets := [{ x := 240, y := 300, r := 3, vy := -520 }],
    enemies := [{ x := 240, y := 300, w := 30, h := 30, vy := 100 }],
    spawnTimer := 0, fireCooldown := 0, gameOverSounded := false }

/-- The random draws of a tick that spawns in the middle of the top edge. -/
def midRand : Rand := { size := 0, x := 1 / 2, vy := 0, timer := 0 }

/-- A short session: two frames with a key press in between. -/
def sampleInputs : List Input :=
  [Input.frame 16 midRand, Input.keydown "Space", Input.frame 32 midRand]

/-- A Running state with one enemy whose lower edge is past the bottom
boundary `H = 640` while its upper edge is not, far from the player. -/
def lowEnemySample : State :=
  { running := true, started := true, paused := false, score := 0,
    player := { x := 240, y := 580, w := 32, h := 36, speed := 280 },
    bullets := [],
    enemies := [{ x := 100, y := 630, w := 30, h := 30, vy := 100 }],
    spawnTimer := 1, fireCooldown := 0, gameOverSounded := false }

/-- A Running state whose player is far outside the world. -/
def farPlayerSample : State :=
  { running := true, started := true, paused := false, score := 0,
    player := { x := 5000, y := 580, w := 32, h := 36, speed := 280 },
    bullets := [], enemies := [],
    spawnTimer := 1, fireCooldown := 0, gameOverSounded := false }

/-- A Running state with one enemy and two bullets inside its box. -/
def twoBulletsSample : State :=
  { running := true, started := true, paused := false, score := 30,
    player := { x := 240, y := 580, w := 32, h := 36, speed := 280 },
    bullets := [{ x := 236, y := 300, r := 3, vy := -520 },
                { x := 244, y := 302, r := 3, vy := -520 }],
    enemies := [{ x := 240, y := 300, w := 30, h := 30, vy := 100 }],
    spawnTimer := 1, fireCooldown := 1 / 10, gameOverSounded := false }

/-- A Running state with one bullet inside the box of the only enemy. -/
def oneBulletSample : State :=
  { running := true, started := true, paused := false, score := 0,
    player := { x := 240, y := 580, w := 32, h := 36, speed := 280 },
    bullets := [{ x := 240, y := 300, r := 3, vy := -520 }],
    enemies := [{ x := 240, y := 300, w := 30, h := 30, vy := 100 }],
    spawnTimer := 1, fireCooldown := 1 / 10, gameOverSounded := false }

/-- A Running state that is ready to fire. -/
def readySample : State :=
  { running := true, started := true, paused := false, score := 0,
    player := { x := 240, y := 580, w := 32, h := 36, speed := 280 },
    bullets := [], enemies := [],
    spawnTimer := 1, fireCooldown := 0, gameOverSounded := false }

/-- A Running state in a world of width 200 with the player at x = 100 and
nothing to collide with for a while. -/
def narrowSample : State :=
  { running := true, started := true, paused := false, score := 0,
    player := { x := 100, y := 580, w := 32, h := 36, speed := 280 },
    bullets := [], enemies := [],
    spawnTimer := 10, fireCooldown := 0, gameOverSounded := false }

/-- A tick of half a time unit with move-left held. -/
def leftTick : Tick := { dt := 1 / 2, keys := ["ArrowLeft"], rnd := midRand }

/-- A Running state with one bullet inside the boxes of two enemies that
overlap each other. -/
def sharedBulletSample : State :=
  { running := true, started := true, paused := false, score := 0,
    player := { x := 240, y := 580, w := 32, h := 36, speed := 280 },
    bullets := [{ x := 240, y := 300, r := 3, vy := -520 }],
    enemies := [{ x := 240, y := 300, w := 30, h := 30, vy := 100 },
                { x := 244, y := 302, w := 30, h := 30, vy := 100 }],
    spawnTimer := 1, fireCooldown := 1 / 10, gameOverSounded := false }

/-! ## Theorems -/

/-! ## C1: stasis outside Running -/

theorem update_of_not_running (W H : ℚ) (keys : List String) (rnd : Rand) (dt : ℚ)
    (s : State) (h : isRunning s = false) : update W H keys rnd dt s = (s, []) := by
  unfold update
  have : (!s.started || s.paused || !s.running) = true := by
    unfold isRunning at h
    cases hs : s.started <;> cases hp : s.paused <;> cases hr : s.running <;> simp_all
  simp [this]

theorem runTicks_of_not_running (W H : ℚ) (s : State) (h : isRunning s = false)
    (ts : List Tick) : runTicks W H s ts = (s, []) := by
  induction ts with
  | nil => rfl
  | cons t ts ih => simp [runTicks, update_of_not_running W H t.keys t.rnd t.dt s h, ih]

/-- C1. Outside Running (not started, or paused, or not running) `update`
returns the state unchanged and emits no event, for every `dt`, every set of
held keys and all random draws; so does any sequence of ticks. -/
theorem C1_stasis_outside_running (W H : ℚ) (s : State)
    (h : s.started = false ∨ s.paused = true ∨ s.running = false) :
    (∀ (keys : List String) (rnd : Rand) (dt : ℚ), update W H keys rnd dt s = (s, [])) ∧
    (∀ ts : List Tick, runTicks W H s ts = (s, [])) := by
  have hr : isRunning s = false := by
    unfold isRunning
    rcases h with h | h | h <;> simp [h]
  exact ⟨fun keys rnd dt => update_of_not_running W H keys rnd dt s hr,
    fun ts => runTicks_of_not_running W H s hr ts⟩

/-- The stasis theorem at a paused state holding a bullet, an enemy and a score. -/
theorem C1_stasis_witness :
    (∀ (keys : List String) (rnd : Rand) (dt : ℚ),
      update 480 640 keys rnd dt pausedSample = (pausedSample, [])) ∧
    (∀ ts : List Tick, runTicks 480 640 pausedSample ts = (pausedSample, [])) :=
  C1_stasis_outside_running 480 640 pausedSample (Or.inr (Or.inl rfl))

/-! ## Field lemmas for the stages of `update` -/

theorem collide_events_hit (es : List Enemy) :
    ∀ (bs : List Bullet) (sc : ℤ), ∀ ev ∈ (collide es bs sc).events, ev = Event.hit := by
  induction es with
  | nil => intro bs sc ev h; simp [collide] at h
  | cons e es ih =>
    intro bs sc ev h
    unfold collide at h
    cases hscan : scanBullets e bs with
    | none =>
      simp only [hscan] at h
      exact ih bs sc ev h
    | some bs' =>
      simp only [hscan, List.mem_cons] at h
      rcases h with h | h
      · exact h
      · exact ih bs' (sc + 10) ev h

theorem shoot_flags (s : State) :
    (shoot s).1.started = s.started ∧ (shoot s).1.paused = s.paused ∧
    (shoot s).1.running = s.running ∧ (shoot s).1.gameOverSounded = s.gameOverSounded ∧
    (shoot s).1.enemies = s.enemies ∧ (shoot s).1.player = s.player ∧
    (shoot s).1.score = s.score ∧ (shoot s).1.spawnTimer = s.spawnTimer := by
  unfold shoot
  split <;> simp

theorem fireStage_flags (keys : List String) (s : State) :
    (fireStage keys s).1.started = s.started ∧ (fireStage keys s).1.paused = s.paused ∧
    (fireStage keys s).1.running = s.running ∧
    (fireStage keys s).1.gameOverSounded = s.gameOverSounded ∧
    (fireStage keys s).1.enemies = s.enemies ∧ (fireStage keys s).1.player = s.player ∧
    (fireStage keys s).1.score = s.score ∧
    (fireStage keys s).1.spawnTimer = s.spawnTimer := by
  unfold fireStage
  split
  · exact shoot_flags s
  · simp

theorem fireStage_events (keys : List String) (s : State) :
    (fireStage keys s).2 = [] ∨ (fireStage keys s).2 = [Event.shoot] := by
  unfold fireStage shoot
  split
  · split <;> simp
  · simp

theorem spawnStage_flags (W : ℚ) (rnd : Rand) (s : State) :
    (spawnStage W rnd s).started = s.started ∧ (spawnStage W rnd s).paused = s.paused ∧
    (spawnStage W rnd s).running = s.running ∧
    (spawnStage W rnd s).gameOverSounded = s.gameOverSounded ∧
    (spawnStage W rnd s).bullets = s.bullets ∧ (spawnStage W rnd s).player = s.player ∧
    (spawnStage W rnd s).score = s.score ∧
    (spawnStage W rnd s).fireCooldown = s.fireCooldown := by
  unfold spawnStage spawnEnemy
  split <;> simp

theorem advance_flags (W : ℚ) (keys : List String) (rnd : Rand) (dt : ℚ) (s : State) :
    (advance W keys rnd dt s).1.started = s.started ∧
    (advance W keys rnd dt s).1.paused = s.paused ∧
    (advance W keys rnd dt s).1.running = s.running ∧
    (advance W keys rnd dt s).1.gameOverSounded = s.gameOverSounded ∧
    (advance W keys rnd dt s).1.score = s.score := by
  obtain ⟨f1, f2, f3, f4, -, -, f7, -⟩ := fireStage_flags keys (movePlayer W keys dt s)
  obtain ⟨g1, g2, g3, g4, -, -, g7, -⟩ :=
    spawnStage_flags W rnd (timerStage dt (fireStage keys (movePlayer W keys dt s)).1)
  simp only [advance, enemyStage, bulletStage]
  refine ⟨?_, ?_, ?_, ?_, ?_⟩
  · rw [g1]; simp only [timerStage]; rw [f1]; rfl
  · rw [g2]; simp only [timerStage]; rw [f2]; rfl
  · rw [g3]; simp only [timerStage]; rw [f3]; rfl
  · rw [g4]; simp only [timerStage]; rw [f4]; rfl
  · rw [g7]; simp only [timerStage]; rw [f7]; rfl

/-- The fold of the terminal pass computes a conjunction. -/
theorem foldl_terminalStep (H : ℚ) (p : Player) (es : List Enemy) (run : Bool) :
    es.foldl (terminalStep H p) run =
      (run && !es.any (fun e => rectHit (playerBox p) (enemyBox e) || decide (e.y - e.h / 2 > H))) := by
  induction es generalizing run with
  | nil => simp
  | cons e es ih =>
    rw [List.foldl_cons, ih]
    unfold terminalStep
    by_cases h1 : rectHit (playerBox p) (enemyBox e) = true <;>
      by_cases h2 : e.y - e.h / 2 > H <;> simp [h1, h2]

theorem update_flags (W H : ℚ) (keys : List String) (rnd : Rand) (dt : ℚ) (s : State) :
    (update W H keys rnd dt s).1.started = s.started ∧
    (update W H keys rnd dt s).1.paused = s.paused ∧
    (update W H keys rnd dt s).1.gameOverSounded = s.gameOverSounded ∧
    ((update W H keys rnd dt s).1.running = true → s.running = true) := by
  unfold update
  split
  · simp
  · obtain ⟨a1, a2, a3, a4, -⟩ := advance_flags W keys rnd dt s
    simp only [bulletPass, terminalPass]
    refine ⟨a1, a2, a4, ?_⟩
    rw [foldl_terminalStep, a3]
    intro h
    simp only [Bool.and_eq_true] at h
    exact h.1

theorem update_events_ne_gameOver (W H : ℚ) (keys : List String) (rnd : Rand) (dt : ℚ)
    (s : State) : (update W H keys rnd dt s).2.count Event.gameOver = 0 := by
  rw [List.count_eq_zero]
  unfold update
  split
  · simp
  · simp only [List.mem_append, not_or]
    constructor
    · simp only [advance]
      rcases fireStage_events keys (movePlayer W keys dt s) with h | h <;> rw [h] <;> simp
    · intro h
      have := collide_events_hit _ _ _ _ h
      cases this

/-! ## C2: the game-over sound -/

theorem sessionInv_reset (W H : ℚ) (s : State) (keys : List String) (lt : ℚ) :
    SessionInv { state := resetGame W H s, keys := keys, lastTime := lt } := by
  simp [SessionInv, resetGame]

theorem gameOverStage_spec (u : State) (hst : u.started = true) :
    (gameOverStage u).1.started = true ∧ (gameOverStage u).1.running = u.running ∧
    (gameOverStage u).1.gameOverSounded = (u.gameOverSounded || !u.running) ∧
    (gameOverStage u).2.count Event.gameOver =
      (if (!u.running && !u.gameOverSounded) then 1 else 0) := by
  rcases u with ⟨r, st, p, sc, pl, bs, es, sp, fc, g⟩
  simp only at hst
  subst hst
  cases r <;> cases g <;> simp [gameOverStage]

theorem session_bool (r r' q : Bool) (u4 : r' = true → r = true)
    (hskip : (!q && r) = false → r' = r) :
    ((!r || !r') = !r') ∧
    ((if (!r' && !!r) then 1 else 0 : ℕ) = if ((!q && r) && !r') then 1 else 0) ∧
    ((if (!r' && !!r) then 1 else 0 : ℕ) + (if r then 0 else 1) = if r' then 0 else 1) := by
  cases r <;> cases r' <;> cases q <;> simp_all

theorem loop_sessionInv (W H : ℚ) (ts : ℚ) (rnd : Rand) (σ : Sys) (h : SessionInv σ) :
    SessionInv (loop W H ts rnd σ).1 ∧
    (loop W H ts rnd σ).2.count Event.gameOver =
      (if switchesToEnded W H σ (Input.frame ts rnd) then 1 else 0) ∧
    (loop W H ts rnd σ).2.count Event.gameOver + endedCount σ =
      endedCount (loop W H ts rnd σ).1 := by
  obtain ⟨hst, hso⟩ := h
  obtain ⟨u1, -, u3, u4⟩ :=
    update_flags W H σ.keys rnd (frameDt σ.lastTime (ts / 1000)) σ.state
  have hev := update_events_ne_gameOver W H σ.keys rnd (frameDt σ.lastTime (ts / 1000)) σ.state
  have hskip : isRunning σ.state = false →
      (update W H σ.keys rnd (frameDt σ.lastTime (ts / 1000)) σ.state).1.running =
        σ.state.running := by
    intro hrun
    rw [update_of_not_running W H σ.keys rnd _ σ.state hrun]
  obtain ⟨g1, g2, g3, g4⟩ := gameOverStage_spec
    (update W H σ.keys rnd (frameDt σ.lastTime (ts / 1000)) σ.state).1 (u1.trans hst)
  have hrun : isRunning σ.state = (!σ.state.paused && σ.state.running) := by
    simp [isRunning, hst]
  have hcount : (loop W H ts rnd σ).2.count Event.gameOver =
      (if (!(update W H σ.keys rnd (frameDt σ.lastTime (ts / 1000)) σ.state).1.running &&
          !σ.state.gameOverSounded) then 1 else 0) := by
    simp only [loop, List.count_append, hev, zero_add, g4, u3]
  have hrun' : (loop W H ts rnd σ).1.state.running =
      (update W H σ.keys rnd (frameDt σ.lastTime (ts / 1000)) σ.state).1.running := g2
  have hsnd : (loop W H ts rnd σ).1.state.gameOverSounded =
      (σ.state.gameOverSounded ||
        !(update W H σ.keys rnd (frameDt σ.lastTime (ts / 1000)) σ.state).1.running) := by
    rw [← u3]; exact g3
  have hsta : (loop W H ts rnd σ).1.state.started = true := g1
  unfold SessionInv endedCount switchesToEnded
  rw [hcount, hrun', hsnd, hsta, hso, hrun]
  rw [hrun] at hskip
  obtain ⟨b1, b2, b3⟩ := session_bool σ.state.running
    (update W H σ.keys rnd (frameDt σ.lastTime (ts / 1000)) σ.state).1.running
    σ.state.paused u4 hskip
  exact ⟨⟨rfl, b1⟩, b2, b3⟩

theorem keydown_sessionInv (W H : ℚ) (code : String) (σ : Sys) (h : SessionInv σ) :
    SessionInv (keydown W H code σ) := by
  obtain ⟨hst, hso⟩ := h
  unfold keydown
  split
  · simp [SessionInv, resetGame]
  · split
    · exact ⟨hst, hso⟩
    · split
      · simp [SessionInv, resetGame]
      · exact ⟨hst, hso⟩

theorem keydown_running (W H : ℚ) (code : String) (σ : Sys) (h : SessionInv σ)
    (hc : code ≠ "KeyR") : (keydown W H code σ).state.running = σ.state.running := by
  unfold keydown
  split_ifs with h1 h2
  · rw [h.1] at h1
    exact absurd h1.2 (by simp)
  · rfl
  · rfl

theorem step_sessionInv (W H : ℚ) (σ : Sys) (i : Input) (h : SessionInv σ) :
    SessionInv (step W H σ i).1 ∧
    (step W H σ i).2.count Event.gameOver = (if switchesToEnded W H σ i then 1 else 0) := by
  cases i with
  | frame ts rnd =>
    obtain ⟨h1, h2, -⟩ := loop_sessionInv W H ts rnd σ h
    exact ⟨h1, h2⟩
  | keydown code => exact ⟨keydown_sessionInv W H code σ h, by simp [step, switchesToEnded]⟩
  | keyup code => exact ⟨h, by simp [step, switchesToEnded]⟩

theorem step_endedCount (W H : ℚ) (σ : Sys) (i : Input) (h : SessionInv σ)
    (hi : i ≠ Input.keydown "KeyR") :
    (step W H σ i).2.count Event.gameOver + endedCount σ = endedCount (step W H σ i).1 := by
  cases i with
  | frame ts rnd => exact (loop_sessionInv W H ts rnd σ h).2.2
  | keydown code =>
    have hc : code ≠ "KeyR" := fun hc => hi (by rw [hc])
    simp [step, endedCount, keydown_running W H code σ h hc]
  | keyup code => simp [step, endedCount, keyup]

theorem run_sessionInv (W H : ℚ) (ins : List Input) :
    ∀ σ : Sys, SessionInv σ → SessionInv (run W H σ ins).1 := by
  induction ins with
  | nil => intro σ h; exact h
  | cons i is ih =>
    intro σ h
    exact ih _ (step_sessionInv W H σ i h).1

theorem run_endedCount (W H : ℚ) (ins : List Input) :
    ∀ σ : Sys, SessionInv σ → (∀ i ∈ ins, i ≠ Input.keydown "KeyR") →
      (run W H σ ins).2.count Event.gameOver + endedCount σ =
        endedCount (run W H σ ins).1 := by
  induction ins with
  | nil => intro σ _ _; simp [run]
  | cons i is ih =>
    intro σ h hno
    have h1 := step_endedCount W H σ i h (hno i (List.mem_cons_self _ _))
    have h2 := ih (step W H σ i).1 (step_sessionInv W H σ i h).1
      (fun j hj => hno j (List.mem_cons_of_mem _ hj))
    simp only [run, List.count_append]
    omega

/-- C2. In a session, that is from a state left by `resetGame` through any
inputs (frames, keydowns, keyups) none of which is the restart command,
`playGameOver` is called once on a frame whose `update` switches the state
from Running to Ended and not at all on any other input; so the number of its
calls in the whole session is 0 while the game runs and exactly 1 once it has
ended, however many frames follow. -/
theorem C2_gameOver_exactly_once (W H : ℚ) (s : State) (keys : List String) (lt : ℚ)
    (ins : List Input) (hno : ∀ i ∈ ins, i ≠ Input.keydown "KeyR") :
    (∀ (pre post : List Input) (i : Input), ins = pre ++ i :: post →
      (step W H (run W H ⟨resetGame W H s, keys, lt⟩ pre).1 i).2.count Event.gameOver =
        (if switchesToEnded W H (run W H ⟨resetGame W H s, keys, lt⟩ pre).1 i
          then 1 else 0)) ∧
    (run W H ⟨resetGame W H s, keys, lt⟩ ins).2.count Event.gameOver =
      (if (run W H ⟨resetGame W H s, keys, lt⟩ ins).1.state.running then 0 else 1) := by
  have h0 := sessionInv_reset W H s keys lt
  constructor
  · intro pre post i _
    exact (step_sessionInv W H _ i (run_sessionInv W H pre _ h0)).2
  · have := run_endedCount W H ins _ h0 hno
    simpa [endedCount, resetGame] using this

theorem sampleInputs_no_restart : ∀ i ∈ sampleInputs, i ≠ Input.keydown "KeyR" := by
  intro i hi
  simp only [sampleInputs, List.mem_cons, List.mem_singleton, List.not_mem_nil, or_false] at hi
  rcases hi with h | h | h <;> rw [h] <;> simp

/-- The game-over count of a short session with a key press between two frames. -/
theorem C2_gameOver_witness :
    (∀ i ∈ sampleInputs, i ≠ Input.keydown "KeyR") ∧
    (run 480 640 ⟨resetGame 480 640 (initialState 480 640), [], 0⟩ sampleInputs).2.count
        Event.gameOver =
      (if (run 480 640 ⟨resetGame 480 640 (initialState 480 640), [], 0⟩
        sampleInputs).1.state.running then 0 else 1) :=
  ⟨sampleInputs_no_restart,
    (C2_gameOver_exactly_once 480 640 (initialState 480 640) [] 0 sampleInputs
      sampleInputs_no_restart).2⟩

/-! ## C3: the terminal condition -/

theorem advance_of_running_player (W : ℚ) (keys : List String) (rnd : Rand) (dt : ℚ)
    (s : State) :
    (advance W keys rnd dt s).1.player = (movePlayer W keys dt s).player := by
  obtain ⟨-, -, -, -, -, f6, -, -⟩ := fireStage_flags keys (movePlayer W keys dt s)
  obtain ⟨-, -, -, -, -, g6, -, -⟩ :=
    spawnStage_flags W rnd (timerStage dt (fireStage keys (movePlayer W keys dt s)).1)
  simp only [advance, enemyStage, bulletStage]
  rw [g6]; simp only [timerStage]; rw [f6]

theorem update_of_running (W H : ℚ) (keys : List String) (rnd : Rand) (dt : ℚ)
    (s : State) (h : isRunning s = true) :
    update W H keys rnd dt s =
      ((bulletPass (terminalPass H (advance W keys rnd dt s).1)).1,
        (advance W keys rnd dt s).2 ++
          (bulletPass (terminalPass H (advance W keys rnd dt s).1)).2) := by
  unfold update
  have : (!s.started || s.paused || !s.running) = false := by
    unfold isRunning at h
    cases hs : s.started <;> cases hp : s.paused <;> cases hr : s.running <;> simp_all
  simp [this]

theorem isRunning_iff (s : State) :
    isRunning s = true ↔ s.started = true ∧ s.paused = false ∧ s.running = true := by
  unfold isRunning
  cases s.started <;> cases s.paused <;> cases s.running <;> simp

/-- C3, as the code has it. In a Running state `update` switches
`state.running` to false exactly when, after this tick's movement (and
spawn), the player's box strictly overlaps some enemy's box or some enemy's
upper edge `y - h/2` is past the bottom boundary `H`; otherwise the phase
stays Running. -/
theorem C3_terminal_condition (W H : ℚ) (keys : List String) (rnd : Rand) (dt : ℚ)
    (s : State) (h : isRunning s = true) :
    ((update W H keys rnd dt s).1.running = false ↔
      ∃ e ∈ (advance W keys rnd dt s).1.enemies,
        rectHit (playerBox (advance W keys rnd dt s).1.player) (enemyBox e) = true ∨
        e.y - e.h / 2 > H) ∧
    ((¬ ∃ e ∈ (advance W keys rnd dt s).1.enemies,
        rectHit (playerBox (advance W keys rnd dt s).1.player) (enemyBox e) = true ∨
        e.y - e.h / 2 > H) → isRunning (update W H keys rnd dt s).1 = true) := by
  obtain ⟨hs, hp, hr⟩ := (isRunning_iff s).1 h
  obtain ⟨a1, a2, a3, -, -⟩ := advance_flags W keys rnd dt s
  have hrun : (update W H keys rnd dt s).1.running =
      !(advance W keys rnd dt s).1.enemies.any (fun e =>
        rectHit (playerBox (advance W keys rnd dt s).1.player) (enemyBox e) ||
          decide (e.y - e.h / 2 > H)) := by
    rw [update_of_running W H keys rnd dt s h]
    simp only [bulletPass, terminalPass]
    rw [foldl_terminalStep, a3, hr, Bool.true_and]
  have hiff : ((update W H keys rnd dt s).1.running = false ↔
      ∃ e ∈ (advance W keys rnd dt s).1.enemies,
        rectHit (playerBox (advance W keys rnd dt s).1.player) (enemyBox e) = true ∨
        e.y - e.h / 2 > H) := by
    rw [hrun]
    simp [List.any_eq_true]
  refine ⟨hiff, fun hno => ?_⟩
  obtain ⟨u1, u2, -, -⟩ := update_flags W H keys rnd dt s
  rw [isRunning_iff]
  refine ⟨u1.trans hs, u2.trans hp, ?_⟩
  cases hu : (update W H keys rnd dt s).1.running
  · exact absurd (hiff.1 hu) hno
  · rfl

/-- The terminal condition at a state whose enemy straddles the bottom boundary. -/
theorem C3_terminal_witness :
    isRunning lowEnemySample = true ∧
    ((update 480 640 [] midRand (16 / 1000) lowEnemySample).1.running = false ↔
      ∃ e ∈ (advance 480 [] midRand (16 / 1000) lowEnemySample).1.enemies,
        rectHit (playerBox (advance 480 [] midRand (16 / 1000) lowEnemySample).1.player)
          (enemyBox e) = true ∨
        e.y - e.h / 2 > 640) :=
  ⟨rfl, (C3_terminal_condition 480 640 [] midRand (16 / 1000) lowEnemySample rfl).1⟩

/-- C3 as stated fails: an enemy's lower edge `y + h/2` is past the bottom
boundary after the tick's movement, and the state is still running. -/
theorem C3_lower_edge_counterexample :
    ¬ ((update 480 640 [] midRand (16 / 1000) lowEnemySample).1.running = false ↔
      ∃ e ∈ (advance 480 [] midRand (16 / 1000) lowEnemySample).1.enemies,
        rectHit (playerBox (advance 480 [] midRand (16 / 1000) lowEnemySample).1.player)
          (enemyBox e) = true ∨
        e.y + e.h / 2 > 640) := by
  norm_num [update, lowEnemySample, midRand, advance, movePlayer, fireStage, held,
    timerStage, spawnStage, bulletStage, enemyStage, terminalPass, bulletPass, collide,
    scanBullets, rectHit, bulletBox, enemyBox, playerBox, moveBullet, moveEnemy, keepBullet,
    terminalStep, direction, clamp]

/-! ## C4: the clamp invariant -/

theorem clamp_bounds (v lo hi : ℚ) (h : lo ≤ hi) : lo ≤ clamp v lo hi ∧ clamp v lo hi ≤ hi := by
  unfold clamp
  exact ⟨le_max_left _ _, max_le h (min_le_left _ _)⟩

theorem direction_cases (keys : List String) :
    direction keys = -1 ∨ direction keys = 0 ∨ direction keys = 1 := by
  unfold direction
  split_ifs <;> norm_num

theorem update_player_x (W H : ℚ) (keys : List String) (rnd : Rand) (dt : ℚ) (s : State)
    (h : isRunning s = true) :
    (update W H keys rnd dt s).1.player.x =
      clamp (s.player.x + direction keys * s.player.speed * dt) 16 (W - 16) := by
  rw [update_of_running W H keys rnd dt s h]
  simp only [bulletPass, terminalPass]
  rw [advance_of_running_player]
  rfl

/-- C4. For a world width `W ≥ 32`, in a Running state, for every `dt` (in
particular every `dt ≥ 0`) and every set of held keys (the net direction is
-1, 0 or +1), the player's x after `update(dt)` lies in `[16, W - 16]`,
whatever it was before the tick. -/
theorem C4_clamp_invariant (W H : ℚ) (hW : 32 ≤ W) (keys : List String) (rnd : Rand)
    (dt : ℚ) (s : State) (h : isRunning s = true) :
    (direction keys = -1 ∨ direction keys = 0 ∨ direction keys = 1) ∧
    16 ≤ (update W H keys rnd dt s).1.player.x ∧
    (update W H keys rnd dt s).1.player.x ≤ W - 16 := by
  rw [update_player_x W H keys rnd dt s h]
  exact ⟨direction_cases keys, clamp_bounds _ 16 (W - 16) (by linarith)⟩

/-- The clamp invariant at a player far to the right of a world of width 480. -/
theorem C4_clamp_witness :
    (32 : ℚ) ≤ 480 ∧ isRunning farPlayerSample = true ∧
    16 ≤ (update 480 640 ["ArrowRight"] midRand (33 / 1000) farPlayerSample).1.player.x ∧
    (update 480 640 ["ArrowRight"] midRand (33 / 1000) farPlayerSample).1.player.x ≤
      480 - 16 :=
  ⟨by norm_num, rfl,
    (C4_clamp_invariant 480 640 (by norm_num) ["ArrowRight"] midRand (33 / 1000)
      farPlayerSample rfl).2⟩

/-! ## C5: the overlap test -/

theorem rectHit_iff (a b : Box) :
    rectHit a b = true ↔
      |a.x - b.x| < (a.w + b.w) / 2 ∧ |a.y - b.y| < (a.h + b.h) / 2 := by
  unfold rectHit
  simp only [Bool.and_eq_true, decide_eq_true_eq, abs_lt]
  constructor
  · rintro ⟨⟨⟨h1, h2⟩, h3⟩, h4⟩
    refine ⟨⟨?_, ?_⟩, ⟨?_, ?_⟩⟩ <;> linarith
  · rintro ⟨⟨h1, h2⟩, ⟨h3, h4⟩⟩
    refine ⟨⟨⟨?_, ?_⟩, ?_⟩, ?_⟩ <;> linarith

/-- C5. `rectHit(a, b)` holds exactly when the centres are closer than the
half-sums of the sizes on both axes, strictly (for all boxes, hence for all
boxes of non-negative size). Boxes whose edges exactly touch on an axis do
not hit; a box of positive size lying inside the other box hits it. -/
theorem C5_rectHit_strict_overlap (a b : Box) :
    (rectHit a b = true ↔
      |a.x - b.x| < (a.w + b.w) / 2 ∧ |a.y - b.y| < (a.h + b.h) / 2) ∧
    ((|a.x - b.x| = (a.w + b.w) / 2 ∨ |a.y - b.y| = (a.h + b.h) / 2) →
      rectHit a b = false) ∧
    ((0 < a.w ∧ 0 < a.h ∧ b.x - b.w / 2 ≤ a.x - a.w / 2 ∧ a.x + a.w / 2 ≤ b.x + b.w / 2 ∧
        b.y - b.h / 2 ≤ a.y - a.h / 2 ∧ a.y + a.h / 2 ≤ b.y + b.h / 2) →
      rectHit a b = true ∧ rectHit b a = true) := by
  refine ⟨rectHit_iff a b, ?_, ?_⟩
  · intro h
    rw [← Bool.not_eq_true, rectHit_iff]
    rintro ⟨h1, h2⟩
    rcases h with h | h
    · exact absurd h (ne_of_lt h1)
    · exact absurd h (ne_of_lt h2)
  · rintro ⟨hw, hh, h1, h2, h3, h4⟩
    constructor
    · unfold rectHit
      simp only [Bool.and_eq_true, decide_eq_true_eq]
      refine ⟨⟨⟨?_, ?_⟩, ?_⟩, ?_⟩ <;> linarith
    · unfold rectHit
      simp only [Bool.and_eq_true, decide_eq_true_eq]
      refine ⟨⟨⟨?_, ?_⟩, ?_⟩, ?_⟩ <;> linarith

/-- A bullet-sized box touching the lower edge of an enemy-sized box: no hit. -/
theorem C5_rectHit_witness :
    rectHit { x := 100, y := 118, w := 6, h := 6 } { x := 100, y := 100, w := 30, h := 30 } =
      false :=
  (C5_rectHit_strict_overlap { x := 100, y := 118, w := 6, h := 6 }
    { x := 100, y := 100, w := 30, h := 30 }).2.1 (Or.inr (by norm_num))

/-! ## C6: scoring per kill -/

theorem scanBullets_isSome (e : Enemy) (bs : List Bullet) :
    (scanBullets e bs).isSome = bs.any (overlaps e) := by
  induction bs with
  | nil => rfl
  | cons b bs ih =>
    unfold scanBullets
    by_cases h : rectHit (bulletBox b) (enemyBox e) = true
    · simp [h, overlaps]
    · simp only [h, if_false, Option.isSome_map', List.any_cons, overlaps]
      simpa [h, overlaps] using ih

theorem scanBullets_none_iff (e : Enemy) (bs : List Bullet) :
    scanBullets e bs = none ↔ bs.any (overlaps e) = false := by
  rw [← scanBullets_isSome]
  cases scanBullets e bs <;> simp

theorem collide_spec (es : List Enemy) :
    ∀ (bs : List Bullet) (sc : ℤ),
      (collide es bs sc).alive =
        ((scanned es bs).filter (fun p => !isOverlapped p)).map Prod.fst ∧
      (collide es bs sc).score = sc + 10 * (((scanned es bs).filter isOverlapped).length : ℤ) ∧
      (collide es bs sc).events =
        List.replicate ((scanned es bs).filter isOverlapped).length Event.hit := by
  induction es with
  | nil => intro bs sc; simp [collide, scanned]
  | cons e es ih =>
    intro bs sc
    unfold collide
    cases hscan : scanBullets e bs with
    | none =>
      have hov : isOverlapped (e, bs) = false := (scanBullets_none_iff e bs).1 hscan
      obtain ⟨i1, i2, i3⟩ := ih bs sc
      simp only [scanned, bulletsAfter, hscan, Option.getD_none]
      simp [List.filter_cons, hov, i1, i2, i3]
    | some bs' =>
      have hov : isOverlapped (e, bs) = true := by
        have := scanBullets_isSome e bs
        rw [hscan] at this
        exact this.symm
      obtain ⟨i1, i2, i3⟩ := ih bs' (sc + 10)
      simp only [scanned, bulletsAfter, hscan, Option.getD_some]
      simp only [List.filter_cons, hov, i1, i2, i3, Bool.not_true, if_true,
        List.length_cons, List.replicate_succ]
      refine ⟨by simp, ?_, trivial⟩
      push_cast
      ring

theorem scanned_length (es : List Enemy) :
    ∀ bs : List Bullet, (scanned es bs).length = es.length := by
  induction es with
  | nil => intro bs; rfl
  | cons e es ih => intro bs; simp [scanned, ih]

theorem filter_split_length {α : Type} (p : α → Bool) (l : List α) :
    (l.filter (fun a => !p a)).length + (l.filter p).length = l.length := by
  induction l with
  | nil => rfl
  | cons a l ih =>
    cases h : p a <;> simp [List.filter_cons, h] <;> omega

theorem advance_score (W : ℚ) (keys : List String) (rnd : Rand) (dt : ℚ) (s : State) :
    (advance W keys rnd dt s).1.score = s.score :=
  (advance_flags W keys rnd dt s).2.2.2.2

/-- The number of enemies the pass removes is the number of scanned enemies
that some bullet overlaps. -/
theorem removed_count (W H : ℚ) (keys : List String) (rnd : Rand) (dt : ℚ)
    (s : State) (h : isRunning s = true) :
    (advance W keys rnd dt s).1.enemies.length - (update W H keys rnd dt s).1.enemies.length =
      ((scanned (advance W keys rnd dt s).1.enemies (advance W keys rnd dt s).1.bullets).filter
        isOverlapped).length := by
  have c1 := (collide_spec (advance W keys rnd dt s).1.enemies
    (advance W keys rnd dt s).1.bullets (advance W keys rnd dt s).1.score).1
  have hsplit := filter_split_length isOverlapped
    (scanned (advance W keys rnd dt s).1.enemies (advance W keys rnd dt s).1.bullets)
  rw [scanned_length] at hsplit
  have hen : (update W H keys rnd dt s).1.enemies =
      ((scanned (advance W keys rnd dt s).1.enemies (advance W keys rnd dt s).1.bullets).filter
        (fun p => !isOverlapped p)).map Prod.fst := by
    rw [update_of_running W H keys rnd dt s h]
    exact c1
  rw [hen, List.length_map]
  omega

/-- C6, as the code has it. In a Running tick the score after `update` is
the score before plus 10 times the number of enemies removed by the
bullet-vs-enemy pass, with one `playHit` per removed enemy. An enemy is
removed exactly when at least one bullet's box overlaps it at the moment the
enemy is scanned: the bullets are then as the earlier enemies of the pass
left them, a bullet that hit one of those being at `y = -1000`
(`scanned` pairs each enemy with that collection). A lone enemy overlapped by
two or more bullets is removed once and adds exactly 10. -/
theorem C6_score_per_kill (W H : ℚ) (keys : List String) (rnd : Rand) (dt : ℚ)
    (s : State) (h : isRunning s = true) :
    (update W H keys rnd dt s).1.score =
      s.score + 10 * (((advance W keys rnd dt s).1.enemies.length -
        (update W H keys rnd dt s).1.enemies.length : ℕ) : ℤ) ∧
    (update W H keys rnd dt s).1.enemies.length ≤ (advance W keys rnd dt s).1.enemies.length ∧
    (update W H keys rnd dt s).2.count Event.hit =
      (advance W keys rnd dt s).1.enemies.length -
        (update W H keys rnd dt s).1.enemies.length ∧
    (update W H keys rnd dt s).1.enemies =
      ((scanned (advance W keys rnd dt s).1.enemies (advance W keys rnd dt s).1.bullets).filter
        (fun p => !isOverlapped p)).map Prod.fst ∧
    (advance W keys rnd dt s).1.enemies.length - (update W H keys rnd dt s).1.enemies.length =
      ((scanned (advance W keys rnd dt s).1.enemies (advance W keys rnd dt s).1.bullets).filter
        isOverlapped).length ∧
    (∀ e : Enemy, (advance W keys rnd dt s).1.enemies = [e] →
      2 ≤ ((advance W keys rnd dt s).1.bullets.filter (overlaps e)).length →
      (update W H keys rnd dt s).1.enemies = [] ∧
      (update W H keys rnd dt s).1.score = s.score + 10) := by
  obtain ⟨c1, c2, c3⟩ := collide_spec (advance W keys rnd dt s).1.enemies
    (advance W keys rnd dt s).1.bullets (advance W keys rnd dt s).1.score
  have hsplit := filter_split_length isOverlapped
    (scanned (advance W keys rnd dt s).1.enemies (advance W keys rnd dt s).1.bullets)
  rw [scanned_length] at hsplit
  have hen : (update W H keys rnd dt s).1.enemies =
      ((scanned (advance W keys rnd dt s).1.enemies (advance W keys rnd dt s).1.bullets).filter
        (fun p => !isOverlapped p)).map Prod.fst := by
    rw [update_of_running W H keys rnd dt s h]
    exact c1
  have hsc : (update W H keys rnd dt s).1.score = s.score + 10 *
      (((scanned (advance W keys rnd dt s).1.enemies
        (advance W keys rnd dt s).1.bullets).filter isOverlapped).length : ℤ) := by
    rw [update_of_running W H keys rnd dt s h, ← advance_score W keys rnd dt s]
    exact c2
  have hev : (update W H keys rnd dt s).2.count Event.hit =
      ((scanned (advance W keys rnd dt s).1.enemies
        (advance W keys rnd dt s).1.bullets).filter isOverlapped).length := by
    rw [update_of_running W H keys rnd dt s h]
    have hshoot : (advance W keys rnd dt s).2.count Event.hit = 0 := by
      simp only [advance]
      rcases fireStage_events keys (movePlayer W keys dt s) with h | h <;> rw [h] <;> simp
    have hhit : (bulletPass (terminalPass H (advance W keys rnd dt s).1)).2 =
        List.replicate ((scanned (advance W keys rnd dt s).1.enemies
          (advance W keys rnd dt s).1.bullets).filter isOverlapped).length Event.hit := c3
    simp only [List.count_append, hshoot, hhit, zero_add, List.count_replicate_self]
  have hlen : (update W H keys rnd dt s).1.enemies.length =
      ((scanned (advance W keys rnd dt s).1.enemies
        (advance W keys rnd dt s).1.bullets).filter (fun p => !isOverlapped p)).length := by
    rw [hen, List.length_map]
  have hrem : (advance W keys rnd dt s).1.enemies.length -
      (update W H keys rnd dt s).1.enemies.length =
      ((scanned (advance W keys rnd dt s).1.enemies
        (advance W keys rnd dt s).1.bullets).filter isOverlapped).length := by
    omega
  refine ⟨by rw [hsc, hrem], by omega, by rw [hev, hrem], hen, hrem, ?_⟩
  intro e he h2
  have hov : isOverlapped (e, (advance W keys rnd dt s).1.bullets) = true := by
    unfold isOverlapped
    rw [List.any_eq_true]
    have hpos : 0 < ((advance W keys rnd dt s).1.bullets.filter (overlaps e)).length := by
      omega
    obtain ⟨b, hb⟩ := List.exists_mem_of_length_pos hpos
    rw [List.mem_filter] at hb
    exact ⟨b, hb.1, hb.2⟩
  rw [hsc, hen, he]
  simp [scanned, List.filter_cons, hov]

/-- The score formula at a state with two bullets inside the only enemy. -/
theorem C6_score_witness :
    isRunning twoBulletsSample = true ∧
    (update 480 640 [] midRand (1 / 100) twoBulletsSample).1.score =
      twoBulletsSample.score + 10 *
        (((advance 480 [] midRand (1 / 100) twoBulletsSample).1.enemies.length -
          (update 480 640 [] midRand (1 / 100) twoBulletsSample).1.enemies.length : ℕ) : ℤ) :=
  ⟨rfl, (C6_score_per_kill 480 640 [] midRand (1 / 100) twoBulletsSample rfl).1⟩

/-- C6 as stated fails: one bullet lies inside the boxes of two enemies when
the pass begins. The first enemy is removed and takes the bullet with it;
the second, though the bullet's box overlapped it, stays, and the score
rises by 10. So "removed exactly when at least one bullet's box overlaps it"
does not hold of the bullets as they enter the pass. -/
theorem C6_shared_bullet_counterexample :
    isRunning sharedBulletSample = true ∧
    (advance 480 [] midRand (1 / 100) sharedBulletSample).1.bullets =
      [{ x := 240, y := 2948 / 10, r := 3, vy := -520 }] ∧
    (advance 480 [] midRand (1 / 100) sharedBulletSample).1.enemies =
      [{ x := 240, y := 301, w := 30, h := 30, vy := 100 },
       { x := 244, y := 303, w := 30, h := 30, vy := 100 }] ∧
    overlaps { x := 240, y := 301, w := 30, h := 30, vy := 100 }
      { x := 240, y := 2948 / 10, r := 3, vy := -520 } = true ∧
    overlaps { x := 244, y := 303, w := 30, h := 30, vy := 100 }
      { x := 240, y := 2948 / 10, r := 3, vy := -520 } = true ∧
    (update 480 640 [] midRand (1 / 100) sharedBulletSample).1.enemies =
      [{ x := 244, y := 303, w := 30, h := 30, vy := 100 }] ∧
    (update 480 640 [] midRand (1 / 100) sharedBulletSample).1.score =
      sharedBulletSample.score + 10 ∧
    ¬ (∀ e ∈ (advance 480 [] midRand (1 / 100) sharedBulletSample).1.enemies,
        (e ∉ (update 480 640 [] midRand (1 / 100) sharedBulletSample).1.enemies ↔
          ∃ b ∈ (advance 480 [] midRand (1 / 100) sharedBulletSample).1.bullets,
            overlaps e b = true)) := by
  have hb : (advance 480 [] midRand (1 / 100) sharedBulletSample).1.bullets =
      [{ x := 240, y := 2948 / 10, r := 3, vy := -520 }] := by
    norm_num [sharedBulletSample, midRand, advance, movePlayer, fireStage, held,
      timerStage, spawnStage, bulletStage, enemyStage, moveBullet, keepBullet]
  have he : (advance 480 [] midRand (1 / 100) sharedBulletSample).1.enemies =
      [{ x := 240, y := 301, w := 30, h := 30, vy := 100 },
       { x := 244, y := 303, w := 30, h := 30, vy := 100 }] := by
    norm_num [sharedBulletSample, midRand, advance, movePlayer, fireStage, held,
      timerStage, spawnStage, bulletStage, enemyStage, moveEnemy]
  have ho1 : overlaps { x := 240, y := 301, w := 30, h := 30, vy := 100 }
      { x := 240, y := 2948 / 10, r := 3, vy := -520 } = true := by
    norm_num [overlaps, rectHit, bulletBox, enemyBox]
  have ho2 : overlaps { x := 244, y := 303, w := 30, h := 30, vy := 100 }
      { x := 240, y := 2948 / 10, r := 3, vy := -520 } = true := by
    norm_num [overlaps, rectHit, bulletBox, enemyBox]
  have hf : (update 480 640 [] midRand (1 / 100) sharedBulletSample).1.enemies =
      [{ x := 244, y := 303, w := 30, h := 30, vy := 100 }] := by
    norm_num [update, sharedBulletSample, midRand, advance, movePlayer, fireStage, held,
      timerStage, spawnStage, bulletStage, enemyStage, terminalPass, bulletPass, collide,
      scanBullets, rectHit, bulletBox, enemyBox, playerBox, moveBullet, moveEnemy,
      keepBullet, terminalStep, direction, clamp]
  have hs : (update 480 640 [] midRand (1 / 100) sharedBulletSample).1.score =
      sharedBulletSample.score + 10 := by
    norm_num [update, sharedBulletSample, midRand, advance, movePlayer, fireStage, held,
      timerStage, spawnStage, bulletStage, enemyStage, terminalPass, bulletPass, collide,
      scanBullets, rectHit, bulletBox, enemyBox, playerBox, moveBullet, moveEnemy,
      keepBullet, terminalStep, direction, clamp]
  refine ⟨rfl, hb, he, ho1, ho2, hf, hs, ?_⟩
  intro hall
  rw [he, hb, hf] at hall
  have h2 := (hall { x := 244, y := 303, w := 30, h := 30, vy := 100 } (by simp)).2
    ⟨{ x := 240, y := 2948 / 10, r := 3, vy := -520 }, by simp, ho2⟩
  exact h2 (by simp)

/-! ## The bullets through the bullet-vs-enemy pass -/

theorem firstHit_none (e : Enemy) (bs : List Bullet) (h : firstHit e bs = none) :
    scanBullets e bs = none := by
  induction bs with
  | nil => rfl
  | cons b bs ih =>
    unfold firstHit at h
    unfold scanBullets
    by_cases hb : overlaps e b = true
    · simp [hb] at h
    · have hb' : ¬ rectHit (bulletBox b) (enemyBox e) = true := hb
      rw [if_neg hb, Option.map_eq_none'] at h
      simp [hb', ih h]

theorem firstHit_some (e : Enemy) (bs : List Bullet) :
    ∀ i : ℕ, firstHit e bs = some i →
      ∃ b bs', bs[i]? = some b ∧ overlaps e b = true ∧ scanBullets e bs = some bs' ∧
        bs'.length = bs.length ∧ bs'[i]? = some { b with y := -1000 } ∧
        ∀ j : ℕ, j ≠ i → bs'[j]? = bs[j]? := by
  induction bs with
  | nil => intro i h; simp [firstHit] at h
  | cons b bs ih =>
    intro i h
    unfold firstHit at h
    by_cases hb : overlaps e b = true
    · have hb' : rectHit (bulletBox b) (enemyBox e) = true := hb
      simp only [hb, if_true, Option.some.injEq] at h
      subst h
      refine ⟨b, { b with y := -1000 } :: bs, by simp, hb, by simp [scanBullets, hb'],
        by simp, by simp, ?_⟩
      intro j hj
      cases j with
      | zero => exact absurd rfl hj
      | succ j => simp
    · have hb' : ¬ rectHit (bulletBox b) (enemyBox e) = true := hb
      rw [if_neg hb, Option.map_eq_some'] at h
      obtain ⟨i0, hi0, rfl⟩ := h
      obtain ⟨b0, bs0, h1, h2, h3, h4, h5, h6⟩ := ih i0 hi0
      refine ⟨b0, b :: bs0, by simpa using h1, h2, by simp [scanBullets, hb', h3],
        by simp [h4], by simpa using h5, ?_⟩
      intro j hj
      cases j with
      | zero => simp
      | succ j =>
        have : j ≠ i0 := fun hji => hj (by rw [hji])
        simpa using h6 j this

theorem bulletsAfter_of_none (e : Enemy) (bs : List Bullet) (h : firstHit e bs = none) :
    bulletsAfter e bs = bs := by
  simp [bulletsAfter, firstHit_none e bs h]

theorem firstHit_isSome (e : Enemy) (bs : List Bullet) :
    (firstHit e bs).isSome = isOverlapped (e, bs) := by
  rw [← show (scanBullets e bs).isSome = isOverlapped (e, bs) from scanBullets_isSome e bs]
  cases h : firstHit e bs with
  | none => simp [firstHit_none e bs h]
  | some i =>
    obtain ⟨b, bs', -, -, h3, -⟩ := firstHit_some e bs i h
    simp [h3]

theorem collide_cons_bullets (e : Enemy) (es : List Enemy) (bs : List Bullet) (sc : ℤ) :
    (collide (e :: es) bs sc).bullets =
      (collide es (bulletsAfter e bs) (if (scanBullets e bs).isSome then sc + 10 else sc)).bullets := by
  cases h : scanBullets e bs <;> simp [collide, bulletsAfter, h]

theorem hitters_length (es : List Enemy) :
    ∀ bs : List Bullet,
      (hitters es bs).length = ((scanned es bs).filter isOverlapped).length := by
  induction es with
  | nil => intro bs; rfl
  | cons e es ih =>
    intro bs
    have h := firstHit_isSome e bs
    simp only [hitters, scanned, List.length_append, ih, List.filter_cons]
    cases hf : firstHit e bs with
    | none =>
      rw [hf] at h
      simp [← h]
    | some i =>
      rw [hf] at h
      simp only [Option.isSome_some] at h
      simp [← h]
      omega

/-- Where the pass leaves each bullet: a hitting bullet stays in its place
with `y = -1000`, every other bullet stays as it was. -/
theorem collide_bullets (es : List Enemy) :
    ∀ (bs : List Bullet) (sc : ℤ),
      (collide es bs sc).bullets.length = bs.length ∧
      ∀ k : ℕ,
        (k ∈ hitters es bs →
          ∃ b, bs[k]? = some b ∧ (collide es bs sc).bullets[k]? = some { b with y := -1000 }) ∧
        (k ∉ hitters es bs → (collide es bs sc).bullets[k]? = bs[k]?) := by
  induction es with
  | nil => intro bs sc; simp [collide, hitters]
  | cons e es ih =>
    intro bs sc
    rw [collide_cons_bullets]
    obtain ⟨il, ik⟩ := ih (bulletsAfter e bs) (if (scanBullets e bs).isSome then sc + 10 else sc)
    cases hf : firstHit e bs with
    | none =>
      have hb := bulletsAfter_of_none e bs hf
      rw [hb] at il ik ⊢
      simp only [hitters, hf, Option.toList_none, List.nil_append, hb]
      exact ⟨il, ik⟩
    | some i =>
      obtain ⟨b, bs', h1, -, h3, h4, h5, h6⟩ := firstHit_some e bs i hf
      have hb : bulletsAfter e bs = bs' := by simp [bulletsAfter, h3]
      rw [hb] at il ik ⊢
      simp only [hitters, hf, Option.toList_some, List.singleton_append, hb, List.mem_cons,
        not_or]
      refine ⟨il.trans h4, fun k => ⟨fun hk => ?_, fun hk => ?_⟩⟩
      · by_cases hkt : k ∈ hitters es bs'
        · obtain ⟨b', hb1, hb2⟩ := (ik k).1 hkt
          by_cases hki : k = i
          · subst hki
            rw [h5] at hb1
            injection hb1 with hb1
            subst hb1
            exact ⟨b, h1, hb2⟩
          · rw [h6 k hki] at hb1
            exact ⟨b', hb1, hb2⟩
        · have hki : k = i := by
            rcases hk with hk | hk
            · exact hk
            · exact absurd hk hkt
          subst hki
          exact ⟨b, h1, by rw [(ik k).2 hkt, h5]⟩
      · rw [(ik k).2 hk.2, h6 k hk.1]

/-! ## C7: a bullet hits at most one enemy per tick -/

theorem dead_not_overlaps (e : Enemy) (b : Bullet) (hb : Dead b)
    (he : -997 ≤ e.y - e.h / 2) : overlaps e b = false := by
  unfold Dead at hb
  rw [← Bool.not_eq_true]
  intro h
  unfold overlaps rectHit bulletBox enemyBox at h
  simp only [Bool.and_eq_true, decide_eq_true_eq] at h
  obtain ⟨-, h4⟩ := h
  linarith

theorem hitters_nodup (es : List Enemy) (hes : ∀ e ∈ es, -997 ≤ e.y - e.h / 2) :
    ∀ bs : List Bullet, (∀ (k : ℕ) (b : Bullet), bs[k]? = some b → b.r ≤ 3) →
      (hitters es bs).Nodup ∧
      ∀ k ∈ hitters es bs, ∃ b, bs[k]? = some b ∧ ¬ Dead b := by
  induction es with
  | nil => intro bs _; simp [hitters]
  | cons e es ih =>
    intro bs hbs
    have hes' : ∀ e' ∈ es, -997 ≤ e'.y - e'.h / 2 :=
      fun e' he' => hes e' (List.mem_cons_of_mem _ he')
    cases hf : firstHit e bs with
    | none =>
      have hb := bulletsAfter_of_none e bs hf
      simp only [hitters, hf, Option.toList_none, List.nil_append, hb]
      exact ih hes' bs hbs
    | some i =>
      obtain ⟨b, bs', h1, h2, h3, -, h5, h6⟩ := firstHit_some e bs i hf
      have hb : bulletsAfter e bs = bs' := by simp [bulletsAfter, h3]
      have hbs' : ∀ (k : ℕ) (b' : Bullet), bs'[k]? = some b' → b'.r ≤ 3 := by
        intro k b' hk
        by_cases hki : k = i
        · subst hki
          rw [h5] at hk
          injection hk with hk
          subst hk
          exact hbs k b h1
        · rw [h6 k hki] at hk
          exact hbs k b' hk
      obtain ⟨ihn, ihm⟩ := ih hes' bs' hbs'
      have hdead : Dead { b with y := -1000 } := by
        have := hbs i b h1
        unfold Dead
        simp only
        linarith
      have hi : i ∉ hitters es bs' := by
        intro hmem
        obtain ⟨b', hb1, hb2⟩ := ihm i hmem
        rw [h5] at hb1
        injection hb1 with hb1
        subst hb1
        exact hb2 hdead
      simp only [hitters, hf, Option.toList_some, List.singleton_append, hb]
      refine ⟨List.nodup_cons.2 ⟨hi, ihn⟩, ?_⟩
      intro k hk
      rcases List.mem_cons.1 hk with hk | hk
      · subst hk
        refine ⟨b, h1, fun hd => ?_⟩
        have := dead_not_overlaps e b hd (hes e (List.mem_cons_self _ _))
        rw [h2] at this
        cases this
      · obtain ⟨b', hb1, hb2⟩ := ihm k hk
        have hki : k ≠ i := fun hki => hi (hki ▸ hk)
        rw [h6 k hki] at hb1
        exact ⟨b', hb1, hb2⟩

theorem nodup_length_le (l : List ℕ) (n : ℕ) (hl : l.Nodup) (hn : ∀ k ∈ l, k < n) :
    l.length ≤ n := by
  have hsub : l ⊆ List.range n := fun k hk => List.mem_range.2 (hn k hk)
  have := (List.subperm_of_subset hl hsub).length_le
  simpa using this

theorem scanned_fst (es : List Enemy) :
    ∀ bs : List Bullet, (scanned es bs).map Prod.fst = es := by
  induction es with
  | nil => intro bs; rfl
  | cons e es ih => intro bs; simp [scanned, ih]

theorem collide_alive_subset (es : List Enemy) (bs : List Bullet) (sc : ℤ) :
    ∀ e ∈ (collide es bs sc).alive, e ∈ es := by
  intro e he
  rw [(collide_spec es bs sc).1, List.mem_map] at he
  obtain ⟨p, hp, rfl⟩ := he
  have hp' : p ∈ scanned es bs := (List.mem_filter.1 hp).1
  have : p.1 ∈ (scanned es bs).map Prod.fst := List.mem_map.2 ⟨p, hp', rfl⟩
  rwa [scanned_fst] at this

theorem collide_bullets_radius (es : List Enemy) (bs : List Bullet) (sc : ℤ)
    (hbs : ∀ b ∈ bs, b.r = 3) : ∀ b ∈ (collide es bs sc).bullets, b.r = 3 := by
  intro b hb
  obtain ⟨k, hk⟩ := List.mem_iff_getElem?.1 hb
  obtain ⟨-, hpt⟩ := collide_bullets es bs sc
  by_cases hmem : k ∈ hitters es bs
  · obtain ⟨b0, h0, h1⟩ := (hpt k).1 hmem
    rw [h1] at hk
    injection hk with hk
    subst hk
    exact hbs b0 (List.mem_iff_getElem?.2 ⟨k, h0⟩)
  · rw [(hpt k).2 hmem] at hk
    exact hbs b (List.mem_iff_getElem?.2 ⟨k, hk⟩)

theorem fireStage_bullets (keys : List String) (s : State) (hs : ∀ b ∈ s.bullets, b.r = 3) :
    ∀ b ∈ (fireStage keys s).1.bullets, b.r = 3 := by
  unfold fireStage shoot
  split
  · split
    · exact hs
    · intro b hb
      simp only [List.mem_append, List.mem_singleton] at hb
      rcases hb with hb | hb
      · exact hs b hb
      · rw [hb]
  · exact hs

theorem spawnStage_enemies (W : ℚ) (rnd : Rand) (s : State) (hr : RandOk rnd)
    (hs : ∀ e ∈ s.enemies, 0 ≤ e.vy ∧ -66 ≤ e.y - e.h / 2) :
    ∀ e ∈ (spawnStage W rnd s).enemies, 0 ≤ e.vy ∧ -66 ≤ e.y - e.h / 2 := by
  obtain ⟨⟨hs0, hs1⟩, -, ⟨hv0, -⟩, -⟩ := hr
  unfold spawnStage spawnEnemy
  split
  · intro e he
    simp only [List.mem_append, List.mem_singleton] at he
    rcases he with he | he
    · exact hs e he
    · rw [he]
      simp only
      constructor <;> linarith
  · exact hs

theorem advance_good (W : ℚ) (keys : List String) (rnd : Rand) (dt : ℚ) (s : State)
    (hdt : 0 ≤ dt) (hr : RandOk rnd) (hs : GoodState s) :
    GoodState (advance W keys rnd dt s).1 := by
  obtain ⟨he, hb⟩ := hs
  obtain ⟨-, -, -, -, f5, -, -, -⟩ := fireStage_flags keys (movePlayer W keys dt s)
  obtain ⟨-, -, -, -, g5, -, -, -⟩ :=
    spawnStage_flags W rnd (timerStage dt (fireStage keys (movePlayer W keys dt s)).1)
  have hb1 := fireStage_bullets keys (movePlayer W keys dt s) hb
  have he1 := spawnStage_enemies W rnd
    (timerStage dt (fireStage keys (movePlayer W keys dt s)).1) hr
    (by simp only [timerStage]; rw [f5]; exact he)
  constructor
  · intro e hmem
    simp only [advance, enemyStage, bulletStage, List.mem_map] at hmem
    obtain ⟨e0, h0, rfl⟩ := hmem
    obtain ⟨hv, hy⟩ := he1 e0 h0
    simp only [moveEnemy]
    have := mul_nonneg hv hdt
    constructor <;> linarith
  · intro b hmem
    simp only [advance, enemyStage, bulletStage, List.mem_filter, List.mem_map] at hmem
    obtain ⟨⟨b0, h0, rfl⟩, -⟩ := hmem
    rw [g5] at h0
    exact hb1 b0 h0

theorem update_good (W H : ℚ) (keys : List String) (rnd : Rand) (dt : ℚ) (s : State)
    (hdt : 0 ≤ dt) (hr : RandOk rnd) (hs : GoodState s) :
    GoodState (update W H keys rnd dt s).1 := by
  by_cases h : isRunning s = true
  · rw [update_of_running W H keys rnd dt s h]
    obtain ⟨he, hb⟩ := advance_good W keys rnd dt s hdt hr hs
    exact ⟨fun e hmem => he e (collide_alive_subset _ _ _ e hmem),
      collide_bullets_radius _ _ _ hb⟩
  · rw [update_of_not_running W H keys rnd dt s (by simpa using h)]
    exact hs

theorem reachable_good (W H : ℚ) (s : State) (h : Reachable W H s) : GoodState s := by
  induction h with
  | reset s => simp [GoodState, resetGame]
  | tick s keys rnd dt _ hdt _ hr ih => exact update_good W H keys rnd dt s hdt hr ih
  | pause s _ _ _ ih => exact ih

/-- C7. In every state reachable from `resetGame` by ticks with
`0 ≤ dt ≤ 0.033`, random draws in `[0, 1)` and arbitrary held keys, one
tick's bullet-vs-enemy pass never lets a bullet be the hitting bullet of two
enemies (the indices of the hitting bullets are pairwise different), a bullet
moved to `y = -1000` by a hit overlaps no enemy of the tick, and the number
of enemies destroyed is the number of hitting bullets, at most the number of
bullets. -/
theorem C7_bullet_hits_at_most_one_enemy (W H : ℚ) (s : State) (hs : Reachable W H s)
    (keys : List String) (rnd : Rand) (dt : ℚ) (hdt0 : 0 ≤ dt) (hdt1 : dt ≤ 33 / 1000)
    (hr : RandOk rnd) (h : isRunning s = true) :
    (hitters (advance W keys rnd dt s).1.enemies (advance W keys rnd dt s).1.bullets).Nodup ∧
    (∀ b ∈ (advance W keys rnd dt s).1.bullets, ∀ e ∈ (advance W keys rnd dt s).1.enemies,
      overlaps e { b with y := -1000 } = false) ∧
    (advance W keys rnd dt s).1.enemies.length - (update W H keys rnd dt s).1.enemies.length =
      (hitters (advance W keys rnd dt s).1.enemies
        (advance W keys rnd dt s).1.bullets).length ∧
    (advance W keys rnd dt s).1.enemies.length - (update W H keys rnd dt s).1.enemies.length ≤
      (advance W keys rnd dt s).1.bullets.length := by
  have _ := hdt1
  obtain ⟨he, hb⟩ := advance_good W keys rnd dt s hdt0 hr (reachable_good W H s hs)
  have hsafe : ∀ e ∈ (advance W keys rnd dt s).1.enemies, -997 ≤ e.y - e.h / 2 := by
    intro e hmem
    have := (he e hmem).2
    linarith
  have hrad : ∀ (k : ℕ) (b : Bullet),
      (advance W keys rnd dt s).1.bullets[k]? = some b → b.r ≤ 3 := by
    intro k b hk
    exact le_of_eq (hb b (List.mem_iff_getElem?.2 ⟨k, hk⟩))
  obtain ⟨hnd, hmem⟩ := hitters_nodup _ hsafe _ hrad
  have hkill := removed_count W H keys rnd dt s h
  have hlen := hitters_length (advance W keys rnd dt s).1.enemies
    (advance W keys rnd dt s).1.bullets
  refine ⟨hnd, ?_, by rw [hkill, hlen], ?_⟩
  · intro b hbm e hem
    apply dead_not_overlaps e _ _ (hsafe e hem)
    unfold Dead
    simp only
    rw [hb b hbm]
    norm_num
  · rw [hkill, ← hlen]
    apply nodup_length_le _ _ hnd
    intro k hk
    obtain ⟨b, hb1, -⟩ := hmem k hk
    by_contra hge
    rw [List.getElem?_eq_none (by omega)] at hb1
    cases hb1

/-- The bullet invariant at the first tick after a reset. -/
theorem C7_bullet_witness :
    Reachable 480 640 (resetGame 480 640 (initialState 480 640)) ∧
    (hitters (advance 480 ["Space"] midRand (16 / 1000)
        (resetGame 480 640 (initialState 480 640))).1.enemies
      (advance 480 ["Space"] midRand (16 / 1000)
        (resetGame 480 640 (initialState 480 640))).1.bullets).Nodup :=
  ⟨Reachable.reset _,
    (C7_bullet_hits_at_most_one_enemy 480 640 _ (Reachable.reset _) ["Space"] midRand
      (16 / 1000) (by norm_num) (by norm_num) (by norm_num [RandOk, midRand]) rfl).1⟩

/-! ## C8: what becomes of a bullet that hits -/

theorem keepBullet_of_hit (b : Bullet) (dt : ℚ) (hy : b.y = -1000) (hv : b.vy ≤ 0)
    (hr : b.r ≤ 990) (hdt : 0 ≤ dt) : keepBullet (moveBullet dt b) = false := by
  unfold keepBullet moveBullet
  simp only [decide_eq_false_iff_not, not_lt, hy]
  have := mul_nonpos_of_nonpos_of_nonneg hv hdt
  linarith

theorem advance_bullets_kept (W : ℚ) (keys : List String) (rnd : Rand) (dt : ℚ) (s : State) :
    ∀ b ∈ (advance W keys rnd dt s).1.bullets, keepBullet b = true := by
  intro b hb
  simp only [advance, enemyStage, bulletStage, List.mem_filter] at hb
  exact hb.2

/-- C8, as the code has it. In a Running tick the bullets collection that
`update` leaves has the bullets of the collision pass in their places: a
bullet that hit an enemy is still a member, moved to `y = -1000` with its
other fields unchanged, and every other bullet is as it was. Such a bullet
(moving up, of radius at most 990) is dropped by the filter of the next
Running tick with `dt ≥ 0`: after being advanced it is not among the bullets
that tick keeps. -/
theorem C8_hit_bullet_repositioned (W H : ℚ) (keys : List String) (rnd : Rand) (dt : ℚ)
    (s : State) (h : isRunning s = true) :
    (update W H keys rnd dt s).1.bullets.length = (advance W keys rnd dt s).1.bullets.length ∧
    (∀ k ∈ hitters (advance W keys rnd dt s).1.enemies (advance W keys rnd dt s).1.bullets,
      ∃ b, (advance W keys rnd dt s).1.bullets[k]? = some b ∧
        (update W H keys rnd dt s).1.bullets[k]? = some { b with y := -1000 }) ∧
    (∀ k ∉ hitters (advance W keys rnd dt s).1.enemies (advance W keys rnd dt s).1.bullets,
      (update W H keys rnd dt s).1.bullets[k]? = (advance W keys rnd dt s).1.bullets[k]?) ∧
    (∀ (b : Bullet) (keys' : List String) (rnd' : Rand) (dt' : ℚ) (s' : State),
      b.y = -1000 → b.vy ≤ 0 → b.r ≤ 990 → 0 ≤ dt' →
      moveBullet dt' b ∉ (advance W keys' rnd' dt' s').1.bullets) := by
  obtain ⟨hl, hk⟩ := collide_bullets (advance W keys rnd dt s).1.enemies
    (advance W keys rnd dt s).1.bullets (advance W keys rnd dt s).1.score
  have hbul : (update W H keys rnd dt s).1.bullets =
      (collide (advance W keys rnd dt s).1.enemies (advance W keys rnd dt s).1.bullets
        (advance W keys rnd dt s).1.score).bullets := by
    rw [update_of_running W H keys rnd dt s h]
    rfl
  rw [hbul]
  refine ⟨hl, fun k hmem => (hk k).1 hmem, fun k hmem => (hk k).2 hmem, ?_⟩
  intro b keys' rnd' dt' s' hy hv hr hdt hmem
  have h1 := advance_bullets_kept W keys' rnd' dt' s' _ hmem
  rw [keepBullet_of_hit b dt' hy hv hr hdt] at h1
  cases h1

/-- The bullets keep their number through a tick in which the only bullet hits. -/
theorem C8_hit_bullet_witness :
    isRunning oneBulletSample = true ∧
    (update 480 640 [] midRand (1 / 100) oneBulletSample).1.bullets.length =
      (advance 480 [] midRand (1 / 100) oneBulletSample).1.bullets.length :=
  ⟨rfl, (C8_hit_bullet_repositioned 480 640 [] midRand (1 / 100) oneBulletSample rfl).1⟩

/-- C8 as stated fails: the only bullet hits the only enemy, which is
removed, and the bullet is still in `state.bullets` when `update` returns,
moved to `y = -1000`. -/
theorem C8_bullet_stays_counterexample :
    isRunning oneBulletSample = true ∧
    (advance 480 [] midRand (1 / 100) oneBulletSample).1.bullets =
      [{ x := 240, y := 2948 / 10, r := 3, vy := -520 }] ∧
    (advance 480 [] midRand (1 / 100) oneBulletSample).1.enemies =
      [{ x := 240, y := 301, w := 30, h := 30, vy := 100 }] ∧
    hitters (advance 480 [] midRand (1 / 100) oneBulletSample).1.enemies
      (advance 480 [] midRand (1 / 100) oneBulletSample).1.bullets = [0] ∧
    (update 480 640 [] midRand (1 / 100) oneBulletSample).1.enemies = [] ∧
    (update 480 640 [] midRand (1 / 100) oneBulletSample).1.score = 10 ∧
    (update 480 640 [] midRand (1 / 100) oneBulletSample).1.bullets =
      [{ x := 240, y := -1000, r := 3, vy := -520 }] := by
  refine ⟨rfl, ?_, ?_, ?_, ?_, ?_, ?_⟩ <;>
  norm_num [update, oneBulletSample, midRand, advance, movePlayer, fireStage, held,
    timerStage, spawnStage, bulletStage, enemyStage, terminalPass, bulletPass, collide,
    scanBullets, rectHit, bulletBox, enemyBox, playerBox, moveBullet, moveEnemy, keepBullet,
    terminalStep, direction, clamp, hitters, firstHit, overlaps, bulletsAfter]

/-! ## C10: firing and the cooldown -/

theorem fireStage_spec (keys : List String) (s : State) :
    shots (fireStage keys s).2 =
      (if held keys "Space" = true ∧ s.fireCooldown ≤ 0 then 1 else 0) ∧
    (fireStage keys s).1.fireCooldown =
      (if held keys "Space" = true ∧ s.fireCooldown ≤ 0 then 18 / 100 else s.fireCooldown) ∧
    (fireStage keys s).1.bullets =
      (if held keys "Space" = true ∧ s.fireCooldown ≤ 0 then s.bullets ++ [noseBullet s.player]
        else s.bullets) := by
  unfold fireStage shoot shots
  by_cases hk : held keys "Space" = true
  · by_cases hc : s.fireCooldown > 0
    · have hc' : ¬ s.fireCooldown ≤ 0 := not_le.2 hc
      simp [hk, hc, hc']
    · have hc' : s.fireCooldown ≤ 0 := not_lt.1 hc
      simp [hk, hc, hc', noseBullet]
  · simp [hk]

theorem update_fire (W H : ℚ) (keys : List String) (rnd : Rand) (dt : ℚ) (s : State)
    (h : isRunning s = true) :
    shots (update W H keys rnd dt s).2 =
      (if held keys "Space" = true ∧ s.fireCooldown ≤ 0 then 1 else 0) ∧
    (update W H keys rnd dt s).1.fireCooldown =
      max 0 ((if held keys "Space" = true ∧ s.fireCooldown ≤ 0 then 18 / 100
        else s.fireCooldown) - dt) := by
  obtain ⟨f1, f2, -⟩ := fireStage_spec keys (movePlayer W keys dt s)
  obtain ⟨-, -, -, -, -, -, -, g8⟩ :=
    spawnStage_flags W rnd (timerStage dt (fireStage keys (movePlayer W keys dt s)).1)
  rw [update_of_running W H keys rnd dt s h]
  constructor
  · have hhit : shots (bulletPass (terminalPass H (advance W keys rnd dt s).1)).2 = 0 := by
      unfold shots
      rw [List.count_eq_zero]
      intro hmem
      have := collide_events_hit _ _ _ _ hmem
      cases this
    unfold shots at hhit f1 ⊢
    rw [List.count_append, hhit, add_zero]
    exact f1
  · show (advance W keys rnd dt s).1.fireCooldown = _
    simp only [advance, enemyStage, bulletStage]
    rw [g8]
    simp only [timerStage]
    rw [f2]
    rfl

/-- C10, as the code has it. In a Running tick the fire command is honoured
(one `playShoot`, one bullet appended at the nose) exactly when the fire key
is held and the cooldown has run out; `shoot` then sets the cooldown to 0.18
and the same tick's countdown is applied to it, so the cooldown in the state
at the end of that tick is `max(0, 0.18 - dt)`: 0.18 only when `dt = 0`. -/
theorem C10_cooldown_after_fire (W H : ℚ) (keys : List String) (rnd : Rand) (dt : ℚ)
    (s : State) (h : isRunning s = true) :
    (shots (update W H keys rnd dt s).2 = 1 ↔ held keys "Space" = true ∧ s.fireCooldown ≤ 0) ∧
    (shots (update W H keys rnd dt s).2 = 1 →
      (fireStage keys (movePlayer W keys dt s)).1.bullets =
        s.bullets ++ [noseBullet (movePlayer W keys dt s).player] ∧
      (fireStage keys (movePlayer W keys dt s)).1.fireCooldown = 18 / 100 ∧
      (update W H keys rnd dt s).1.fireCooldown = max 0 (18 / 100 - dt)) := by
  obtain ⟨u1, u2⟩ := update_fire W H keys rnd dt s h
  obtain ⟨-, f2, f3⟩ := fireStage_spec keys (movePlayer W keys dt s)
  have hiff : shots (update W H keys rnd dt s).2 = 1 ↔
      held keys "Space" = true ∧ s.fireCooldown ≤ 0 := by
    rw [u1]
    by_cases hc : held keys "Space" = true ∧ s.fireCooldown ≤ 0 <;> simp [hc]
  refine ⟨hiff, fun hs => ?_⟩
  have hc := hiff.1 hs
  have hc' : held keys "Space" = true ∧ (movePlayer W keys dt s).fireCooldown ≤ 0 := hc
  rw [if_pos hc'] at f2 f3
  rw [if_pos hc] at u2
  exact ⟨f3, f2, u2⟩

/-- When the fire command is honoured, at a state that is ready to fire. -/
theorem C10_cooldown_witness :
    isRunning readySample = true ∧
    (shots (update 480 640 ["Space"] midRand (16 / 1000) readySample).2 = 1 ↔
      held ["Space"] "Space" = true ∧ readySample.fireCooldown ≤ 0) :=
  ⟨rfl, (C10_cooldown_after_fire 480 640 ["Space"] midRand (16 / 1000) readySample rfl).1⟩

/-- C10 as stated fails: the fire command is honoured in a tick of 16 ms and
the cooldown at the end of the tick is 0.164, not 0.18. -/
theorem C10_cooldown_counterexample :
    isRunning readySample = true ∧
    shots (update 480 640 ["Space"] midRand (16 / 1000) readySample).2 = 1 ∧
    (update 480 640 ["Space"] midRand (16 / 1000) readySample).1.bullets.length = 1 ∧
    (update 480 640 ["Space"] midRand (16 / 1000) readySample).1.fireCooldown = 164 / 1000 ∧
    (update 480 640 ["Space"] midRand (16 / 1000) readySample).1.fireCooldown ≠ 18 / 100 := by
  refine ⟨rfl, ?_, ?_, ?_, ?_⟩ <;>
  norm_num [update, readySample, midRand, advance, movePlayer, fireStage, shoot, held, shots,
    timerStage, spawnStage, bulletStage, enemyStage, terminalPass, bulletPass, collide,
    scanBullets, rectHit, bulletBox, enemyBox, playerBox, moveBullet, moveEnemy, keepBullet,
    terminalStep, direction, clamp]

/-! ## Runs of ticks -/

theorem elapsed_cons (u : Tick) (ts : List Tick) : elapsed (u :: ts) = u.dt + elapsed ts := by
  simp [elapsed]

theorem runTicks_cons_fst (W H : ℚ) (s : State) (u : Tick) (ts : List Tick) :
    (runTicks W H s (u :: ts)).1 = (runTicks W H (update W H u.keys u.rnd u.dt s).1 ts).1 := rfl

/-! ## C11: restart -/

/-- C11. From every state (any phase, score, entities, timers and held keys)
the restart key `KeyR` leaves the state that `resetGame` produces and nothing
else changes: started, running, not paused, score 0, the player at
`(W/2, H - 60)` with its size and speed untouched, no bullets, no enemies,
both timers 0 and `gameOverSounded` false. With the player's constants of the
source (32, 36, 280) this is one and the same state for every start state;
`Enter` produces exactly it from NotStarted, and `resetGame` is idempotent. -/
theorem C11_restart_full_reset (W H : ℚ) (σ : Sys) :
    keydown W H "KeyR" σ = { σ with state := resetGame W H σ.state } ∧
    (resetGame W H σ.state).started = true ∧ (resetGame W H σ.state).running = true ∧
    (resetGame W H σ.state).paused = false ∧ isRunning (resetGame W H σ.state) = true ∧
    (resetGame W H σ.state).score = 0 ∧
    (resetGame W H σ.state).player =
      { σ.state.player with x := W / 2, y := H - 60 } ∧
    (resetGame W H σ.state).bullets = [] ∧ (resetGame W H σ.state).enemies = [] ∧
    (resetGame W H σ.state).spawnTimer = 0 ∧ (resetGame W H σ.state).fireCooldown = 0 ∧
    (resetGame W H σ.state).gameOverSounded = false ∧
    ((σ.state.player.w = 32 ∧ σ.state.player.h = 36 ∧ σ.state.player.speed = 280) →
      (keydown W H "KeyR" σ).state = freshState W H) ∧
    (σ.state.started = false →
      keydown W H "Enter" σ = keydown W H "KeyR" σ) ∧
    resetGame W H (resetGame W H σ.state) = resetGame W H σ.state := by
  have hR : keydown W H "KeyR" σ = { σ with state := resetGame W H σ.state } := by
    simp [keydown]
  refine ⟨hR, rfl, rfl, rfl, rfl, rfl, rfl, rfl, rfl, rfl, rfl, rfl, ?_, ?_, rfl⟩
  · rintro ⟨hw, hh, hs⟩
    rw [hR]
    rcases σ with ⟨⟨r, st, p, sc, ⟨px, py, pw, ph, ps⟩, bs, es, sp, fc, g⟩, keys, lt⟩
    simp only at hw hh hs
    subst hw hh hs
    rfl
  · intro hst
    rw [hR]
    simp [keydown, hst]

/-- The restart at a paused state holding a bullet, an enemy and a score. -/
theorem C11_restart_witness :
    (pausedSample.player.w = 32 ∧ pausedSample.player.h = 36 ∧
      pausedSample.player.speed = 280) ∧
    (keydown 480 640 "KeyR" ⟨pausedSample, ["Space"], 5⟩).state = freshState 480 640 :=
  ⟨⟨rfl, rfl, rfl⟩,
    (C11_restart_full_reset 480 640 ⟨pausedSample, ["Space"], 5⟩).2.2.2.2.2.2.2.2.2.2.2.2.1
      ⟨rfl, rfl, rfl⟩⟩

/-! ## C12: leaving NotStarted -/

theorem loop_started (W H : ℚ) (ts : ℚ) (rnd : Rand) (σ : Sys) :
    (loop W H ts rnd σ).1.state.started = σ.state.started := by
  have hu := (update_flags W H σ.keys rnd (frameDt σ.lastTime (ts / 1000)) σ.state).1
  show (gameOverStage (update W H σ.keys rnd (frameDt σ.lastTime (ts / 1000)) σ.state).1).1.started = _
  rw [← hu]
  unfold gameOverStage
  split <;> rfl

theorem loop_of_notStarted (W H : ℚ) (σ : Sys) (h : σ.state.started = false) (ts : ℚ)
    (rnd : Rand) : (loop W H ts rnd σ).1.state = σ.state := by
  have hnr : isRunning σ.state = false := by simp [isRunning, h]
  show (gameOverStage (update W H σ.keys rnd (frameDt σ.lastTime (ts / 1000)) σ.state).1).1 = _
  rw [update_of_not_running W H σ.keys rnd _ σ.state hnr]
  simp [gameOverStage, h]

/-- C12, as the code has it. From NotStarted every key press other than the
start key `Enter` and the restart key `KeyR`, every key release and every
frame (any timestamp, so any `dt`) leaves the phase NotStarted; `Enter` and
`KeyR` both lead to Running. -/
theorem C12_leaving_notStarted (W H : ℚ) (σ : Sys) (h : σ.state.started = false) :
    (∀ code : String, code ≠ "Enter" → code ≠ "KeyR" →
      (keydown W H code σ).state = σ.state) ∧
    (∀ code : String, (keyup code σ).state = σ.state) ∧
    (∀ (ts : ℚ) (rnd : Rand), (loop W H ts rnd σ).1.state = σ.state) ∧
    (∀ (keys : List String) (rnd : Rand) (dt : ℚ),
      (update W H keys rnd dt σ.state).1 = σ.state) ∧
    phase σ.state = Phase.notStarted ∧
    phase (keydown W H "Enter" σ).state = Phase.running ∧
    phase (keydown W H "KeyR" σ).state = Phase.running := by
  have hnr : isRunning σ.state = false := by simp [isRunning, h]
  refine ⟨?_, fun _ => rfl, ?_, ?_, by simp [phase, h], by simp [keydown, h, phase, resetGame],
    by simp [keydown, phase, resetGame]⟩
  · intro code h1 h2
    unfold keydown
    rw [if_neg (fun hc => h1 hc.1), if_neg, if_neg h2]
    rintro ⟨-, hst, -⟩
    rw [h] at hst
    cases hst
  · intro ts rnd
    show (gameOverStage (update W H σ.keys rnd (frameDt σ.lastTime (ts / 1000)) σ.state).1).1 = _
    rw [update_of_not_running W H σ.keys rnd _ σ.state hnr]
    simp [gameOverStage, h]
  · intro keys rnd dt
    rw [update_of_not_running W H keys rnd dt σ.state hnr]

/-- A frame on the page as it is loaded leaves it NotStarted. -/
theorem C12_notStarted_witness :
    (initialState 480 640).started = false ∧
    (loop 480 640 16 midRand ⟨initialState 480 640, [], 0⟩).1.state = initialState 480 640 :=
  ⟨rfl, (C12_leaving_notStarted 480 640 ⟨initialState 480 640, [], 0⟩ rfl).2.2.1 16 midRand⟩

/-- C12 as stated fails: `KeyR` is a key event other than the start command
`Enter`, and from NotStarted it leads to Running. -/
theorem C12_restart_counterexample :
    phase (initialState 480 640) = Phase.notStarted ∧ "KeyR" ≠ "Enter" ∧
    phase (keydown 480 640 "KeyR" ⟨initialState 480 640, [], 0⟩).state = Phase.running := by
  refine ⟨rfl, by decide, ?_⟩
  simp [keydown, phase, resetGame]

/-! ## C13: the pause key -/

/-- C13. The pause key `KeyP` flips the `paused` flag, and nothing else of
the state, exactly when the game has started and is running: Running becomes
Paused and Paused becomes Running. In NotStarted and Ended it leaves the
state as it is. Pressing it twice restores the state in every phase. -/
theorem C13_pause_toggle (W H : ℚ) (σ : Sys) :
    ((σ.state.started = true ∧ σ.state.running = true) →
      (keydown W H "KeyP" σ).state = { σ.state with paused := !σ.state.paused } ∧
      (phase σ.state = Phase.running → phase (keydown W H "KeyP" σ).state = Phase.paused) ∧
      (phase σ.state = Phase.paused → phase (keydown W H "KeyP" σ).state = Phase.running)) ∧
    ((σ.state.started = false ∨ σ.state.running = false) →
      (keydown W H "KeyP" σ).state = σ.state) ∧
    (keydown W H "KeyP" (keydown W H "KeyP" σ)).state = σ.state := by
  by_cases hc : σ.state.started = true ∧ σ.state.running = true
  · have h1 : keydown W H "KeyP" σ =
        { σ with state := { σ.state with paused := !σ.state.paused } } := by
      simp [keydown, hc]
    refine ⟨fun _ => ⟨by rw [h1], ?_, ?_⟩, ?_, ?_⟩
    · rw [h1]
      simp only [phase, hc.1, hc.2]
      cases σ.state.paused <;> simp
    · rw [h1]
      simp only [phase, hc.1, hc.2]
      cases σ.state.paused <;> simp
    · rintro (h | h)
      · rw [hc.1] at h; cases h
      · rw [hc.2] at h; cases h
    · rw [h1]
      rcases σ with ⟨⟨r, st, p, sc, pl, bs, es, sp, fc, g⟩, keys, lt⟩
      simp only at hc
      obtain ⟨rfl, rfl⟩ := hc
      simp [keydown]
  · have h1 : keydown W H "KeyP" σ = { σ with keys := keysAdd σ.keys "KeyP" } := by
      simp only [keydown]
      rw [if_neg (by simp), if_neg (fun h => hc h.2), if_neg (by decide)]
    refine ⟨fun h => absurd h hc, fun _ => by rw [h1], ?_⟩
    rw [h1]
    simp only [keydown]
    rw [if_neg (by simp), if_neg (fun h => hc h.2), if_neg (by decide)]


/-- The pause key pressed twice on a paused game. -/
theorem C13_pause_witness :
    (keydown 480 640 "KeyP" (keydown 480 640 "KeyP" ⟨pausedSample, [], 0⟩)).state =
      pausedSample :=
  (C13_pause_toggle 480 640 ⟨pausedSample, [], 0⟩).2.2

/-! ## C14 and C15: the time step -/

theorem frameTimes_append (pre post : List Input) :
    frameTimes (pre ++ post) = frameTimes pre ++ frameTimes post := by
  induction pre with
  | nil => rfl
  | cons i pre ih => cases i <;> simp [frameTimes, ih]

theorem step_lastTime (W H : ℚ) (σ : Sys) (i : Input) :
    (step W H σ i).1.lastTime =
      match i with
      | Input.frame ts _ => ts / 1000
      | _ => σ.lastTime := by
  cases i with
  | frame ts rnd => rfl
  | keydown code =>
    simp only [step, keydown]
    split_ifs <;> rfl
  | keyup code => rfl

/-- After a run, `lastTime` is the timestamp of the last frame, in seconds,
or what it was when there has been no frame. -/
theorem run_lastTime (W H : ℚ) (pre : List Input) :
    ∀ σ : Sys, (run W H σ pre).1.lastTime =
      (frameTimes pre).getLastD (1000 * σ.lastTime) / 1000 := by
  induction pre with
  | nil => intro σ; simp [run, frameTimes]
  | cons i pre ih =>
    intro σ
    have hs := step_lastTime W H σ i
    show (run W H (step W H σ i).1 pre).1.lastTime = _
    rw [ih]
    cases i with
    | frame ts rnd =>
      simp only at hs
      rw [hs]
      simp only [frameTimes, List.getLastD_cons]
      congr 2
      ring
    | keydown code =>
      simp only at hs
      rw [hs]
      rfl
    | keyup code =>
      simp only at hs
      rw [hs]
      rfl

theorem chain_getLastD_le (l : List ℚ) :
    ∀ (a b : ℚ) (rest : List ℚ), List.Chain (fun x y => x ≤ y) a (l ++ b :: rest) →
      a ≤ l.getLastD a ∧ l.getLastD a ≤ b := by
  induction l with
  | nil =>
    intro a b rest h
    simp only [List.nil_append, List.chain_cons] at h
    exact ⟨le_rfl, h.1⟩
  | cons c l ih =>
    intro a b rest h
    simp only [List.cons_append, List.chain_cons] at h
    obtain ⟨h1, h2⟩ := ih c b rest h.2
    rw [List.getLastD_cons]
    exact ⟨le_trans h.1 h1, h2⟩

theorem frameDt_eq (lt t : ℚ) : frameDt lt t = min (33 / 1000) (t - lt) := by
  unfold frameDt orZero
  split_ifs with h
  · rw [h]
  · rfl

/-- C14. Start with `lastTime = 0`, as the script does, and deliver any
inputs whose frame timestamps are non-negative and non-decreasing. On every
frame `lastTime` is the previous frame's timestamp in seconds (0 before the
first), it is not after the current one, and the delta time that `loop`
passes to `update` is `min(0.033, t - lastTime)`, between 0 and 0.033. -/
theorem C14_stepper_bounds (W H : ℚ) (s0 : State) (keys0 : List String) (ins : List Input)
    (hmono : List.Chain (fun x y => x ≤ y) 0 (frameTimes ins))
    (pre post : List Input) (ts : ℚ) (rnd : Rand)
    (hsplit : ins = pre ++ Input.frame ts rnd :: post) :
    (step W H (run W H ⟨s0, keys0, 0⟩ pre).1 (Input.frame ts rnd)).1.state =
      (gameOverStage (update W H (run W H ⟨s0, keys0, 0⟩ pre).1.keys rnd
        (frameDt (run W H ⟨s0, keys0, 0⟩ pre).1.lastTime (ts / 1000))
        (run W H ⟨s0, keys0, 0⟩ pre).1.state).1).1 ∧
    (run W H ⟨s0, keys0, 0⟩ pre).1.lastTime = (frameTimes pre).getLastD 0 / 1000 ∧
    (run W H ⟨s0, keys0, 0⟩ pre).1.lastTime ≤ ts / 1000 ∧
    frameDt (run W H ⟨s0, keys0, 0⟩ pre).1.lastTime (ts / 1000) =
      min (33 / 1000) (ts / 1000 - (run W H ⟨s0, keys0, 0⟩ pre).1.lastTime) ∧
    0 ≤ frameDt (run W H ⟨s0, keys0, 0⟩ pre).1.lastTime (ts / 1000) ∧
    frameDt (run W H ⟨s0, keys0, 0⟩ pre).1.lastTime (ts / 1000) ≤ 33 / 1000 := by
  have hlt : (run W H ⟨s0, keys0, 0⟩ pre).1.lastTime = (frameTimes pre).getLastD 0 / 1000 := by
    rw [run_lastTime]
    simp
  rw [hsplit, frameTimes_append] at hmono
  have hle := (chain_getLastD_le (frameTimes pre) 0 ts (frameTimes post) hmono).2
  have hle' : (run W H ⟨s0, keys0, 0⟩ pre).1.lastTime ≤ ts / 1000 := by
    rw [hlt]
    exact div_le_div_of_nonneg_right hle (by norm_num)
  refine ⟨rfl, hlt, hle', frameDt_eq _ _, ?_, ?_⟩
  · rw [frameDt_eq]
    exact le_min (by norm_num) (by linarith)
  · rw [frameDt_eq]
    exact min_le_left _ _

theorem sampleInputs_times : List.Chain (fun x y : ℚ => x ≤ y) 0 (frameTimes sampleInputs) := by
  simp only [sampleInputs, frameTimes, List.chain_cons]
  norm_num

/-- The second frame of the short session: 16 ms after the first. -/
theorem C14_stepper_witness :
    List.Chain (fun x y : ℚ => x ≤ y) 0 (frameTimes sampleInputs) ∧
    0 ≤ frameDt (run 480 640 ⟨initialState 480 640, [], 0⟩
      [Input.frame 16 midRand, Input.keydown "Space"]).1.lastTime (32 / 1000) ∧
    frameDt (run 480 640 ⟨initialState 480 640, [], 0⟩
      [Input.frame 16 midRand, Input.keydown "Space"]).1.lastTime (32 / 1000) ≤ 33 / 1000 :=
  ⟨sampleInputs_times,
    (C14_stepper_bounds 480 640 (initialState 480 640) [] sampleInputs sampleInputs_times
      [Input.frame 16 midRand, Input.keydown "Space"] [] 32 midRand rfl).2.2.2.2⟩

/-- C15, as the code has it. On the first call of `loop`, with `lastTime`
still 0, the delta time passed to `update` is `min(0.033, t)` for the first
timestamp `t` in seconds: it is 0 exactly when the first timestamp is 0, and
never more than 0.033. On the page as loaded (not started) that first frame
leaves the state as it is. -/
theorem C15_first_frame_delta (W H : ℚ) (s : State) (keys : List String) (ts : ℚ)
    (rnd : Rand) :
    (loop W H ts rnd ⟨initGame W H s, keys, 0⟩).1.state =
      (gameOverStage (update W H keys rnd (frameDt 0 (ts / 1000)) (initGame W H s)).1).1 ∧
    frameDt 0 (ts / 1000) = min (33 / 1000) (ts / 1000) ∧
    (frameDt 0 (ts / 1000) = 0 ↔ ts = 0) ∧
    frameDt 0 (ts / 1000) ≤ 33 / 1000 ∧
    (loop W H ts rnd ⟨initGame W H s, keys, 0⟩).1.state = initGame W H s := by
  have hdt : frameDt 0 (ts / 1000) = min (33 / 1000) (ts / 1000) := by
    rw [frameDt_eq, sub_zero]
  refine ⟨rfl, hdt, ?_, ?_, ?_⟩
  · rw [hdt]
    constructor
    · intro h
      rcases min_choice (33 / 1000 : ℚ) (ts / 1000) with hc | hc
      · rw [hc] at h
        norm_num at h
      · rw [hc] at h
        linarith
    · intro h
      rw [h]
      norm_num
  · rw [hdt]
    exact min_le_left _ _
  · exact loop_of_notStarted W H ⟨initGame W H s, keys, 0⟩ rfl ts rnd

/-- C15 as stated fails: with a first timestamp of 16 ms the delta time of
the first frame is 0.016, not 0. -/
theorem C15_first_frame_counterexample :
    (loop 480 640 16 midRand ⟨initGame 480 640 (initialState 480 640), [], 0⟩).1.state =
      (gameOverStage (update 480 640 [] midRand (frameDt 0 (16 / 1000))
        (initGame 480 640 (initialState 480 640))).1).1 ∧
    frameDt 0 (16 / 1000) = 16 / 1000 ∧ frameDt 0 (16 / 1000) ≠ 0 := by
  refine ⟨rfl, ?_, ?_⟩ <;> norm_num [frameDt, orZero]


/-! ## C16 and C17: the spawner -/

theorem spawnEnemy_enemies (W : ℚ) (rnd : Rand) (s : State) :
    (spawnEnemy W rnd s).enemies = s.enemies ++ [spawned W rnd] := rfl

theorem advance_spawn (W : ℚ) (keys : List String) (rnd : Rand) (dt : ℚ) (s : State) :
    (advance W keys rnd dt s).1.enemies =
      (if s.spawnTimer - dt ≤ 0 then s.enemies ++ [spawned W rnd] else s.enemies).map
        (moveEnemy dt) ∧
    (advance W keys rnd dt s).1.spawnTimer =
      (if s.spawnTimer - dt ≤ 0 then 55 / 100 + rnd.timer * (4 / 10)
        else s.spawnTimer - dt) := by
  obtain ⟨-, -, -, -, f5, -, -, f8⟩ := fireStage_flags keys (movePlayer W keys dt s)
  have ht : (timerStage dt (fireStage keys (movePlayer W keys dt s)).1).spawnTimer =
      s.spawnTimer - dt := by
    simp only [timerStage]
    rw [f8]
    rfl
  have he : (timerStage dt (fireStage keys (movePlayer W keys dt s)).1).enemies =
      s.enemies := by
    simp only [timerStage]
    rw [f5]
    rfl
  simp only [advance, enemyStage, bulletStage]
  unfold spawnStage
  rw [ht]
  split_ifs with hc
  · exact ⟨by rw [← he]; rfl, rfl⟩
  · exact ⟨by rw [← he], ht⟩

theorem update_spawnTimer (W H : ℚ) (keys : List String) (rnd : Rand) (dt : ℚ) (s : State)
    (h : isRunning s = true) :
    (update W H keys rnd dt s).1.spawnTimer = (advance W keys rnd dt s).1.spawnTimer := by
  rw [update_of_running W H keys rnd dt s h]
  rfl

theorem spawned_ranges (W : ℚ) (hW : 40 < W) (rnd : Rand) (hr : RandOk rnd) :
    (spawned W rnd).w = (spawned W rnd).h ∧
    28 ≤ (spawned W rnd).w ∧ (spawned W rnd).w < 44 ∧
    20 ≤ (spawned W rnd).x ∧ (spawned W rnd).x < W - 20 ∧
    90 ≤ (spawned W rnd).vy ∧ (spawned W rnd).vy < 210 ∧
    (55 / 100 : ℚ) ≤ 55 / 100 + rnd.timer * (4 / 10) ∧
    55 / 100 + rnd.timer * (4 / 10) < 95 / 100 := by
  obtain ⟨⟨s0, s1⟩, ⟨x0, x1⟩, ⟨v0, v1⟩, ⟨t0, t1⟩⟩ := hr
  have hW' : 0 < W - 40 := by linarith
  have hx0 : 0 ≤ rnd.x * (W - 40) := mul_nonneg x0 (le_of_lt hW')
  have hx1 : rnd.x * (W - 40) < 1 * (W - 40) := mul_lt_mul_of_pos_right x1 hW'
  simp only [spawned]
  refine ⟨trivial, ?_, ?_, ?_, ?_, ?_, ?_, ?_, ?_⟩ <;> linarith

/-- C16. For a world width `W > 40`, in a Running tick with random draws in
`[0, 1)`: if `spawnTimer - dt ≤ 0`, exactly one enemy is appended in that
tick (and advanced with the others), square with a size in `[28, 44)`, x in
`[20, W - 20)` and vy in `[90, 210)`, and the spawn timer is reset to a value
in `[0.55, 0.95)`; otherwise no enemy is appended and the spawn timer becomes
`spawnTimer - dt`. The decision reads the spawn timer and `dt` only. -/
theorem C16_spawner (W H : ℚ) (hW : 40 < W) (keys : List String) (rnd : Rand)
    (hr : RandOk rnd) (dt : ℚ) (s : State) (h : isRunning s = true) :
    (s.spawnTimer - dt ≤ 0 →
      (advance W keys rnd dt s).1.enemies =
        (s.enemies ++ [spawned W rnd]).map (moveEnemy dt) ∧
      (advance W keys rnd dt s).1.enemies.length = s.enemies.length + 1 ∧
      (spawned W rnd).w = (spawned W rnd).h ∧
      28 ≤ (spawned W rnd).w ∧ (spawned W rnd).w < 44 ∧
      20 ≤ (spawned W rnd).x ∧ (spawned W rnd).x < W - 20 ∧
      90 ≤ (spawned W rnd).vy ∧ (spawned W rnd).vy < 210 ∧
      (update W H keys rnd dt s).1.spawnTimer = 55 / 100 + rnd.timer * (4 / 10) ∧
      55 / 100 ≤ (update W H keys rnd dt s).1.spawnTimer ∧
      (update W H keys rnd dt s).1.spawnTimer < 95 / 100) ∧
    (¬ s.spawnTimer - dt ≤ 0 →
      (advance W keys rnd dt s).1.enemies = s.enemies.map (moveEnemy dt) ∧
      (advance W keys rnd dt s).1.enemies.length = s.enemies.length ∧
      (update W H keys rnd dt s).1.spawnTimer = s.spawnTimer - dt) ∧
    (∀ (s' : State) (keys' : List String), isRunning s' = true →
      s'.spawnTimer = s.spawnTimer →
      ((advance W keys' rnd dt s').1.enemies.length = s'.enemies.length + 1 ↔
        (advance W keys rnd dt s).1.enemies.length = s.enemies.length + 1)) := by
  obtain ⟨a1, a2⟩ := advance_spawn W keys rnd dt s
  obtain ⟨r1, r2, r3, r4, r5, r6, r7, r8, r9⟩ := spawned_ranges W hW rnd hr
  have hu := update_spawnTimer W H keys rnd dt s h
  refine ⟨fun hc => ?_, fun hc => ?_, fun s' keys' _ hst => ?_⟩
  · rw [if_pos hc] at a1 a2
    rw [hu, a2]
    exact ⟨a1, by rw [a1]; simp, r1, r2, r3, r4, r5, r6, r7, rfl, r8, r9⟩
  · rw [if_neg hc] at a1 a2
    rw [hu, a2]
    exact ⟨a1, by rw [a1]; simp, rfl⟩
  · obtain ⟨b1, -⟩ := advance_spawn W keys' rnd dt s'
    rw [a1, b1, hst]
    by_cases hc : s.spawnTimer - dt ≤ 0
    · simp [hc]
    · simp [hc]

/-- A tick of 16 ms with a second left on the spawn timer: no spawn. -/
theorem C16_spawner_witness :
    (40 : ℚ) < 480 ∧ RandOk midRand ∧ isRunning readySample = true ∧
    ¬ readySample.spawnTimer - 16 / 1000 ≤ 0 ∧
    (advance 480 [] midRand (16 / 1000) readySample).1.enemies =
      readySample.enemies.map (moveEnemy (16 / 1000)) ∧
    (advance 480 [] midRand (16 / 1000) readySample).1.enemies.length =
      readySample.enemies.length ∧
    (update 480 640 [] midRand (16 / 1000) readySample).1.spawnTimer =
      readySample.spawnTimer - 16 / 1000 :=
  ⟨by norm_num, by norm_num [RandOk, midRand], rfl, by norm_num [readySample],
    (C16_spawner 480 640 (by norm_num) [] midRand (by norm_num [RandOk, midRand])
      (16 / 1000) readySample rfl).2.1 (by norm_num [readySample])⟩

/-- C17, as the code has it. The enemy that `spawnEnemy` appends, for random
draws in `[0, 1)`, is a square of side `size` whose centre is at `y = -size`:
its upper edge `y - h/2` is at `-1.5 * size` and its lower edge `y + h/2` at
`-size / 2`, above the top of the visible area, so it starts fully above it. -/
theorem C17_spawn_height (W : ℚ) (rnd : Rand) (hr : RandOk rnd) (s : State) :
    (spawnEnemy W rnd s).enemies = s.enemies ++ [spawned W rnd] ∧
    (spawned W rnd).w = 28 + rnd.size * 16 ∧ (spawned W rnd).h = (spawned W rnd).w ∧
    (spawned W rnd).y = -(spawned W rnd).w ∧
    (spawned W rnd).y - (spawned W rnd).h / 2 = -(3 / 2) * (spawned W rnd).w ∧
    (spawned W rnd).y + (spawned W rnd).h / 2 = -(spawned W rnd).w / 2 ∧
    (spawned W rnd).y + (spawned W rnd).h / 2 < 0 ∧
    (spawned W rnd).y - (spawned W rnd).h / 2 ≠ -(spawned W rnd).w := by
  obtain ⟨⟨s0, -⟩, -⟩ := hr
  simp only [spawned]
  refine ⟨rfl, trivial, trivial, trivial, by ring, by ring, by linarith, ?_⟩
  intro hne
  linarith

/-- The enemy spawned for the smallest size draw. -/
theorem C17_spawn_witness :
    RandOk midRand ∧
    (spawned 480 midRand).y - (spawned 480 midRand).h / 2 =
      -(3 / 2) * (spawned 480 midRand).w :=
  ⟨by norm_num [RandOk, midRand],
    (C17_spawn_height 480 midRand (by norm_num [RandOk, midRand]) readySample).2.2.2.2.1⟩

/-- C17 as stated fails: for the size draw 0 the enemy has size 28 and its
upper edge `y - h/2` is at -42, not at -28. -/
theorem C17_top_edge_counterexample :
    (spawnEnemy 480 midRand readySample).enemies =
      [{ x := 240, y := -28, w := 28, h := 28, vy := 90 }] ∧
    ∀ e ∈ (spawnEnemy 480 midRand readySample).enemies,
      e.y - e.h / 2 = -42 ∧ e.y - e.h / 2 ≠ -e.w := by
  have h : (spawnEnemy 480 midRand readySample).enemies =
      [{ x := 240, y := -28, w := 28, h := 28, vy := 90 }] := by
    norm_num [spawnEnemy, midRand, readySample]
  refine ⟨h, ?_⟩
  rw [h]
  intro e he
  rw [List.mem_singleton] at he
  subst he
  norm_num


/-! ## C18: the score over a session -/

theorem update_score_le (W H : ℚ) (keys : List String) (rnd : Rand) (dt : ℚ) (s : State) :
    s.score ≤ (update W H keys rnd dt s).1.score ∧
    ∃ n : ℕ, (update W H keys rnd dt s).1.score = s.score + 10 * (n : ℤ) := by
  by_cases h : isRunning s = true
  · have hsc : (update W H keys rnd dt s).1.score = s.score + 10 *
        (((scanned (advance W keys rnd dt s).1.enemies
          (advance W keys rnd dt s).1.bullets).filter isOverlapped).length : ℤ) := by
      rw [update_of_running W H keys rnd dt s h, ← advance_score W keys rnd dt s]
      exact (collide_spec _ _ _).2.1
    refine ⟨?_, _, hsc⟩
    rw [hsc]
    have : (0 : ℤ) ≤ (((scanned (advance W keys rnd dt s).1.enemies
        (advance W keys rnd dt s).1.bullets).filter isOverlapped).length : ℤ) :=
      Int.natCast_nonneg _
    linarith
  · rw [update_of_not_running W H keys rnd dt s (by simpa using h)]
    exact ⟨le_rfl, 0, by simp⟩

theorem gameOverStage_score (s : State) : (gameOverStage s).1.score = s.score := by
  unfold gameOverStage
  split <;> rfl

theorem step_score (W H : ℚ) (σ : Sys) (i : Input) :
    (isRestart σ i = true → (step W H σ i).1.state.score = 0) ∧
    (isRestart σ i = false → σ.state.score ≤ (step W H σ i).1.state.score ∧
      ∃ n : ℕ, (step W H σ i).1.state.score = σ.state.score + 10 * (n : ℤ)) := by
  cases i with
  | frame ts rnd =>
    refine ⟨fun h => by simp [isRestart] at h, fun _ => ?_⟩
    show σ.state.score ≤ (gameOverStage _).1.score ∧
      ∃ n : ℕ, (gameOverStage _).1.score = σ.state.score + 10 * (n : ℤ)
    rw [gameOverStage_score]
    exact update_score_le W H σ.keys rnd _ σ.state
  | keydown code =>
    simp only [isRestart, step, keydown]
    constructor
    · intro h
      split_ifs with h1 h2 h3
      · rfl
      · simp [h2.1] at h
      · rfl
      · simp [h3] at h
        exact absurd ⟨h.1, by simpa using h.2⟩ h1
    · intro h
      simp only [Bool.or_eq_false_iff, decide_eq_false_iff_not, Bool.and_eq_false_iff,
        Bool.not_eq_false'] at h
      split_ifs with h1 h2 h3
      · rcases h.2 with h4 | h4
        · exact absurd h1.1 h4
        · rw [h1.2] at h4; cases h4
      · exact ⟨le_rfl, 0, by simp⟩
      · exact absurd h3 h.1
      · exact ⟨le_rfl, 0, by simp⟩
  | keyup code =>
    exact ⟨fun h => by simp [isRestart] at h, fun _ => ⟨le_rfl, 0, by simp [step, keyup]⟩⟩

theorem run_score (W H : ℚ) (ins : List Input) :
    ∀ σ : Sys, (∃ n : ℕ, σ.state.score = 10 * (n : ℤ)) →
      ∃ n : ℕ, (run W H σ ins).1.state.score = 10 * (n : ℤ) := by
  induction ins with
  | nil => intro σ h; exact h
  | cons i is ih =>
    intro σ ⟨n, hn⟩
    apply ih
    by_cases hr : isRestart σ i = true
    · exact ⟨0, by rw [(step_score W H σ i).1 hr]; simp⟩
    · obtain ⟨-, m, hm⟩ := (step_score W H σ i).2 (by simpa using hr)
      exact ⟨n + m, by rw [hm, hn]; push_cast; ring⟩

/-- C18. In every state reached from `initGame` through any frames and key
events the score is a non-negative integer (a multiple of 10). From any
state, a frame, a key release and a key press that is not a start or restart
command never lower the score (they add 10 per kill or nothing), so only a
start or restart command can bring a positive score to 0, and it always sets
the score to 0. -/
theorem C18_score_invariant (W H : ℚ) (s : State) (keys : List String) (lt : ℚ)
    (ins : List Input) :
    0 ≤ (run W H ⟨initGame W H s, keys, lt⟩ ins).1.state.score ∧
    (∃ n : ℕ, (run W H ⟨initGame W H s, keys, lt⟩ ins).1.state.score = 10 * (n : ℤ)) ∧
    (∀ (σ : Sys) (i : Input), isRestart σ i = false →
      σ.state.score ≤ (step W H σ i).1.state.score) ∧
    (∀ (σ : Sys) (i : Input), (step W H σ i).1.state.score < σ.state.score →
      isRestart σ i = true) ∧
    (∀ (σ : Sys) (i : Input), isRestart σ i = true →
      (step W H σ i).1.state = resetGame W H σ.state ∧
      (step W H σ i).1.state.score = 0) := by
  obtain ⟨n, hn⟩ := run_score W H ins ⟨initGame W H s, keys, lt⟩ ⟨0, by simp [initGame]⟩
  refine ⟨?_, ⟨n, hn⟩, fun σ i h => ((step_score W H σ i).2 h).1, fun σ i h => ?_,
    fun σ i h => ⟨?_, (step_score W H σ i).1 h⟩⟩
  · rw [hn]
    have : (0 : ℤ) ≤ (n : ℤ) := Int.natCast_nonneg _
    linarith
  · by_contra hr
    have := ((step_score W H σ i).2 (by simpa using hr)).1
    linarith
  · cases i with
    | frame ts rnd => simp [isRestart] at h
    | keyup code => simp [isRestart] at h
    | keydown code =>
      simp only [isRestart, Bool.or_eq_true, decide_eq_true_eq, Bool.and_eq_true,
        Bool.not_eq_true'] at h
      simp only [step, keydown]
      split_ifs with h1 h2 h3
      · rfl
      · rcases h with h | h
        · rw [h] at h2
          exact absurd h2.1 (by decide)
        · exact absurd h h1
      · rfl
      · rcases h with h | h
        · exact absurd h h3
        · exact absurd h h1


/-! ## C19: movement over several ticks -/

theorem update_player (W H : ℚ) (keys : List String) (rnd : Rand) (dt : ℚ) (s : State)
    (h : isRunning s = true) :
    (update W H keys rnd dt s).1.player = (movePlayer W keys dt s).player := by
  rw [update_of_running W H keys rnd dt s h]
  simp only [bulletPass, terminalPass]
  rw [advance_of_running_player]

theorem elapsed_nonneg (ts : List Tick) (h : ∀ u ∈ ts, 0 ≤ u.dt) : 0 ≤ elapsed ts := by
  induction ts with
  | nil => simp [elapsed]
  | cons u ts ih =>
    rw [elapsed_cons]
    have h1 := h u (List.mem_cons_self _ _)
    have h2 := ih (fun v hv => h v (List.mem_cons_of_mem _ hv))
    linarith

/-- The player's x after a run of Running ticks that all have the net
direction `d`, for the three directions. -/
theorem runTicks_player_x (W H : ℚ) (hW : 32 ≤ W) (ts : List Tick) :
    ∀ s : State, s.player.speed = 280 → 16 ≤ s.player.x → s.player.x ≤ W - 16 →
      (∀ u ∈ ts, 0 ≤ u.dt) →
      (∀ k < ts.length, isRunning (runTicks W H s (ts.take k)).1 = true) →
      ((∀ u ∈ ts, direction u.keys = -1) →
        (runTicks W H s ts).1.player.x = max 16 (s.player.x - 280 * elapsed ts)) ∧
      ((∀ u ∈ ts, direction u.keys = 1) →
        (runTicks W H s ts).1.player.x = min (W - 16) (s.player.x + 280 * elapsed ts)) ∧
      ((∀ u ∈ ts, direction u.keys = 0) →
        (runTicks W H s ts).1.player.x = s.player.x) := by
  induction ts with
  | nil =>
    intro s _ h1 h2 _ _
    simp [runTicks, elapsed, h1, h2]
  | cons u ts ih =>
    intro s hsp h1 h2 hdt hrun
    have hr0 : isRunning s = true := hrun 0 (by simp)
    have hu0 : 0 ≤ u.dt := hdt u (List.mem_cons_self _ _)
    have hE : 0 ≤ elapsed ts := elapsed_nonneg ts (fun v hv => hdt v (List.mem_cons_of_mem _ hv))
    have hp := update_player W H u.keys u.rnd u.dt s hr0
    have hx : (update W H u.keys u.rnd u.dt s).1.player.x =
        clamp (s.player.x + direction u.keys * 280 * u.dt) 16 (W - 16) := by
      rw [hp, ← hsp]
      rfl
    have hsp' : (update W H u.keys u.rnd u.dt s).1.player.speed = 280 := by
      rw [hp]
      exact hsp
    obtain ⟨hb1, hb2⟩ := clamp_bounds (s.player.x + direction u.keys * 280 * u.dt) 16 (W - 16)
      (by linarith)
    rw [← hx] at hb1 hb2
    obtain ⟨iL, iR, iZ⟩ := ih (update W H u.keys u.rnd u.dt s).1 hsp' hb1 hb2
      (fun v hv => hdt v (List.mem_cons_of_mem _ hv))
      (fun k hk => by
        have := hrun (k + 1) (by simp; omega)
        simpa [runTicks] using this)
    rw [runTicks_cons_fst, elapsed_cons]
    refine ⟨fun hd => ?_, fun hd => ?_, fun hd => ?_⟩
    · rw [iL (fun v hv => hd v (List.mem_cons_of_mem _ hv)), hx,
        hd u (List.mem_cons_self _ _)]
      unfold clamp
      rw [min_eq_right (by nlinarith)]
      rcases le_total 16 (s.player.x + -1 * 280 * u.dt) with hc | hc
      · rw [max_eq_right hc]
        congr 1
        ring
      · rw [max_eq_left hc, max_eq_left (by nlinarith), max_eq_left (by nlinarith)]
    · rw [iR (fun v hv => hd v (List.mem_cons_of_mem _ hv)), hx,
        hd u (List.mem_cons_self _ _)]
      unfold clamp
      rcases le_total (s.player.x + 1 * 280 * u.dt) (W - 16) with hc | hc
      · rw [min_eq_right hc, max_eq_right (by nlinarith)]
        congr 1
        ring
      · rw [min_eq_left hc, max_eq_right (by linarith), min_eq_left (by nlinarith),
          min_eq_left (by nlinarith)]
    · rw [iZ (fun v hv => hd v (List.mem_cons_of_mem _ hv)), hx,
        hd u (List.mem_cons_self _ _)]
      unfold clamp
      rw [min_eq_right (by linarith), max_eq_right (by linarith)]
      ring

/-- C19. For a world width `W ≥ 32`, a start x in `[16, W - 16]`, the player's
speed 280 and any ticks with `dt ≥ 0` at each of which the game is Running:
if only move-left is held throughout, the x after the ticks is
`max(16, x0 - 280 * total)`, with move-right `min(W - 16, x0 + 280 * total)`,
with both or neither `x0`, where `total` is the sum of the `dt`; so it does
not depend on how the time is split. For `x0 = 100`, `W = 200` and a total of
1 the result is 16. -/
theorem C19_frame_rate_independence (W H : ℚ) (hW : 32 ≤ W) (s : State) (ts : List Tick)
    (hspeed : s.player.speed = 280) (hlo : 16 ≤ s.player.x) (hhi : s.player.x ≤ W - 16)
    (hdt : ∀ u ∈ ts, 0 ≤ u.dt)
    (hrun : ∀ k < ts.length, isRunning (runTicks W H s (ts.take k)).1 = true) :
    ((∀ u ∈ ts, direction u.keys = -1) →
      (runTicks W H s ts).1.player.x = max 16 (s.player.x - 280 * elapsed ts)) ∧
    ((∀ u ∈ ts, direction u.keys = 1) →
      (runTicks W H s ts).1.player.x = min (W - 16) (s.player.x + 280 * elapsed ts)) ∧
    ((∀ u ∈ ts, direction u.keys = 0) →
      (runTicks W H s ts).1.player.x = s.player.x) ∧
    (∀ keys : List String,
      (direction keys = -1 ↔
        ((held keys "ArrowLeft" || held keys "KeyA") = true ∧
          (held keys "ArrowRight" || held keys "KeyD") = false)) ∧
      (direction keys = 1 ↔
        ((held keys "ArrowLeft" || held keys "KeyA") = false ∧
          (held keys "ArrowRight" || held keys "KeyD") = true)) ∧
      (direction keys = 0 ↔
        ((held keys "ArrowLeft" || held keys "KeyA") =
          (held keys "ArrowRight" || held keys "KeyD")))) ∧
    ((∀ u ∈ ts, direction u.keys = -1) → W = 200 → s.player.x = 100 → elapsed ts = 1 →
      (runTicks W H s ts).1.player.x = 16) := by
  obtain ⟨hL, hR, hZ⟩ := runTicks_player_x W H hW ts s hspeed hlo hhi hdt hrun
  refine ⟨hL, hR, hZ, ?_, ?_⟩
  · intro keys
    unfold direction
    cases (held keys "ArrowLeft" || held keys "KeyA") <;>
      cases (held keys "ArrowRight" || held keys "KeyD") <;> norm_num
  · intro hd _ hx he
    rw [hL hd, hx, he]
    norm_num

theorem leftTicks_running : ∀ k < [leftTick, leftTick].length,
    isRunning (runTicks 200 640 narrowSample ([leftTick, leftTick].take k)).1 = true := by
  intro k hk
  have hk' : k = 0 ∨ k = 1 := by
    simp only [List.length_cons, List.length_nil] at hk
    omega
  have h1 : held ["ArrowLeft"] "ArrowLeft" = true := by decide
  have h2 : held ["ArrowLeft"] "KeyA" = false := by decide
  have h3 : held ["ArrowLeft"] "ArrowRight" = false := by decide
  have h4 : held ["ArrowLeft"] "KeyD" = false := by decide
  have h5 : held ["ArrowLeft"] "Space" = false := by decide
  rcases hk' with rfl | rfl <;>
  norm_num [runTicks, update, narrowSample, leftTick, midRand, advance, movePlayer, fireStage,
    shoot, h1, h2, h3, h4, h5, timerStage, spawnStage, bulletStage, enemyStage, terminalPass,
    bulletPass, collide, isRunning, moveBullet, keepBullet, direction, clamp]

theorem leftTick_direction : ∀ u ∈ [leftTick, leftTick], direction u.keys = -1 := by
  intro u hu
  simp only [List.mem_cons, List.mem_singleton, List.not_mem_nil, or_false, or_self] at hu
  have h1 : held ["ArrowLeft"] "ArrowLeft" = true := by decide
  have h3 : held ["ArrowLeft"] "ArrowRight" = false := by decide
  have h4 : held ["ArrowLeft"] "KeyD" = false := by decide
  rw [hu]
  norm_num [direction, leftTick, h1, h3, h4]

/-- Move-left for two ticks of half a time unit from x = 100 in a world of
width 200: the player ends at x = 16. -/
theorem C19_movement_witness :
    (32 : ℚ) ≤ 200 ∧ narrowSample.player.speed = 280 ∧ elapsed [leftTick, leftTick] = 1 ∧
    (runTicks 200 640 narrowSample [leftTick, leftTick]).1.player.x = 16 :=
  ⟨by norm_num, rfl, by norm_num [elapsed, leftTick],
    (C19_frame_rate_independence 200 640 (by norm_num) narrowSample [leftTick, leftTick] rfl
      (by norm_num [narrowSample]) (by norm_num [narrowSample])
      (by intro u hu
          simp only [List.mem_cons, List.mem_singleton, List.not_mem_nil, or_false,
            or_self] at hu
          rw [hu]
          norm_num [leftTick])
      leftTicks_running).2.2.2.2 leftTick_direction rfl rfl (by norm_num [elapsed, leftTick])⟩


/-! ## C20: the lifecycle flags in reachable states -/

theorem phaseInv_bool (st r p r' : Bool) (hinv : (p = true → st = true ∧ r = true) ∧
    (st = false → r = true))
    (hmono : r' = true → r = true)
    (hskip : (st && !p && r) = false → r' = r) :
    (p = true → st = true ∧ r' = true) ∧ (st = false → r' = true) := by
  revert hinv hmono hskip
  cases st <;> cases r <;> cases p <;> cases r' <;> decide

theorem update_phaseInv (W H : ℚ) (keys : List String) (rnd : Rand) (dt : ℚ) (s : State)
    (h : PhaseInv s) : PhaseInv (update W H keys rnd dt s).1 := by
  obtain ⟨u1, u2, -, u4⟩ := update_flags W H keys rnd dt s
  have hskip : (s.started && !s.paused && s.running) = false →
      (update W H keys rnd dt s).1.running = s.running := by
    intro hr
    rw [update_of_not_running W H keys rnd dt s hr]
  unfold PhaseInv
  rw [u1, u2]
  exact phaseInv_bool s.started s.running s.paused _ h u4 hskip

theorem gameOverStage_flags (s : State) :
    (gameOverStage s).1.started = s.started ∧ (gameOverStage s).1.running = s.running ∧
    (gameOverStage s).1.paused = s.paused := by
  unfold gameOverStage
  split <;> exact ⟨rfl, rfl, rfl⟩

theorem step_phaseInv (W H : ℚ) (σ : Sys) (i : Input) (h : PhaseInv σ.state) :
    PhaseInv (step W H σ i).1.state := by
  cases i with
  | frame ts rnd =>
    have hu := update_phaseInv W H σ.keys rnd (frameDt σ.lastTime (ts / 1000)) σ.state h
    obtain ⟨g1, g2, g3⟩ := gameOverStage_flags
      (update W H σ.keys rnd (frameDt σ.lastTime (ts / 1000)) σ.state).1
    show PhaseInv (gameOverStage _).1
    unfold PhaseInv at hu ⊢
    rw [g1, g2, g3]
    exact hu
  | keydown code =>
    simp only [step, keydown]
    split_ifs with h1 h2 h3
    · simp [PhaseInv, resetGame]
    · simp only [PhaseInv]
      exact ⟨fun _ => ⟨h2.2.1, h2.2.2⟩, fun hst => by rw [h2.2.1] at hst; cases hst⟩
    · simp [PhaseInv, resetGame]
    · exact h
  | keyup code => exact h

theorem run_phaseInv (W H : ℚ) (ins : List Input) :
    ∀ σ : Sys, PhaseInv σ.state → PhaseInv (run W H σ ins).1.state := by
  induction ins with
  | nil => intro σ h; exact h
  | cons i is ih => intro σ h; exact ih _ (step_phaseInv W H σ i h)

theorem phase_of_inv (s : State) (h : PhaseInv s) :
    (s.started = false ∧ s.running = true ∧ s.paused = false ∧ phase s = Phase.notStarted) ∨
    (s.started = true ∧ s.running = true ∧ s.paused = false ∧ phase s = Phase.running) ∨
    (s.started = true ∧ s.running = true ∧ s.paused = true ∧ phase s = Phase.paused) ∨
    (s.started = true ∧ s.running = false ∧ s.paused = false ∧ phase s = Phase.ended) := by
  unfold PhaseInv at h
  unfold phase
  revert h
  cases s.started <;> cases s.running <;> cases s.paused <;> simp

/-- C20. In every state reached from `initGame` through any frames (any
timestamps, so any `dt`) and key events, `paused` implies started and
running: the game is never paused and ended at once, nor paused before it
has started, and the flags `(started, running, paused)` are one of the four
combinations that denote NotStarted, Running, Paused and Ended. -/
theorem C20_phases_exclusive (W H : ℚ) (s : State) (keys : List String) (lt : ℚ)
    (ins : List Input) :
    ((run W H ⟨initGame W H s, keys, lt⟩ ins).1.state.paused = true →
      (run W H ⟨initGame W H s, keys, lt⟩ ins).1.state.started = true ∧
      (run W H ⟨initGame W H s, keys, lt⟩ ins).1.state.running = true) ∧
    ¬ ((run W H ⟨initGame W H s, keys, lt⟩ ins).1.state.paused = true ∧
      (run W H ⟨initGame W H s, keys, lt⟩ ins).1.state.running = false) ∧
    ¬ ((run W H ⟨initGame W H s, keys, lt⟩ ins).1.state.paused = true ∧
      (run W H ⟨initGame W H s, keys, lt⟩ ins).1.state.started = false) ∧
    (((run W H ⟨initGame W H s, keys, lt⟩ ins).1.state.started = false ∧
        (run W H ⟨initGame W H s, keys, lt⟩ ins).1.state.running = true ∧
        (run W H ⟨initGame W H s, keys, lt⟩ ins).1.state.paused = false ∧
        phase (run W H ⟨initGame W H s, keys, lt⟩ ins).1.state = Phase.notStarted) ∨
      ((run W H ⟨initGame W H s, keys, lt⟩ ins).1.state.started = true ∧
        (run W H ⟨initGame W H s, keys, lt⟩ ins).1.state.running = true ∧
        (run W H ⟨initGame W H s, keys, lt⟩ ins).1.state.paused = false ∧
        phase (run W H ⟨initGame W H s, keys, lt⟩ ins).1.state = Phase.running) ∨
      ((run W H ⟨initGame W H s, keys, lt⟩ ins).1.state.started = true ∧
        (run W H ⟨initGame W H s, keys, lt⟩ ins).1.state.running = true ∧
        (run W H ⟨initGame W H s, keys, lt⟩ ins).1.state.paused = true ∧
        phase (run W H ⟨initGame W H s, keys, lt⟩ ins).1.state = Phase.paused) ∨
      ((run W H ⟨initGame W H s, keys, lt⟩ ins).1.state.started = true ∧
        (run W H ⟨initGame W H s, keys, lt⟩ ins).1.state.running = false ∧
        (run W H ⟨initGame W H s, keys, lt⟩ ins).1.state.paused = false ∧
        phase (run W H ⟨initGame W H s, keys, lt⟩ ins).1.state = Phase.ended)) := by
  have h0 : PhaseInv (⟨initGame W H s, keys, lt⟩ : Sys).state := by
    simp [PhaseInv, initGame]
  have hinv := run_phaseInv W H ins ⟨initGame W H s, keys, lt⟩ h0
  refine ⟨hinv.1, ?_, ?_, phase_of_inv _ hinv⟩
  · rintro ⟨hp, hr⟩
    rw [(hinv.1 hp).2] at hr
    cases hr
  · rintro ⟨hp, hst⟩
    rw [(hinv.1 hp).1] at hst
    cases hst


end Dafeiji
